import Mathlib

/-!
# Verification of the Prusa binary G-code container codec

A shallow embedding of the container codec in `_common.py` of the
`prusa_pa_calibration` repository: the encoder `_write_bgcode`, the decoder
`bgcode_to_ascii`, and the minimal PNG builder `_make_png`.

Modelling conventions:
* A Python `bytes` value is a `List Nat` whose elements are below 256.
* A Python `str` value is represented by its UTF-8 byte encoding
  (a `List Nat`); `str.encode("utf-8")` and `bytes.decode("utf-8")` are then
  the identity on valid UTF-8 byte lists, and `decode` failure on invalid
  UTF-8 is modelled by the executable validator `utf8Valid`.
  UTF-8 encoding of Python strings is injective, so distinctness of texts
  coincides with distinctness of their byte representations.
* `zlib.crc32` is implemented bit-for-bit (reflected polynomial
  `0xEDB88320`, init/xorout `0xFFFFFFFF`, running-seed variant).
* `zlib.decompress` (used by the decoder only for Deflate-compressed GCode
  blocks) and `zlib.compress` (used by the PNG builder) are external
  primitives and are passed in as explicit function parameters.
* Machine integers are `Nat` with explicit `% 2^16` / `% 2^32` where the
  Python code packs fixed-width fields.
* The decoder's `while` loop advances its cursor by at least 14 bytes per
  iteration; it is embedded with an explicit fuel parameter (initial fuel
  `data.length + 1` always suffices, which is proved, and a distinguished
  `fuelOut` result marks the unreachable fuel-exhaustion case).
* Python raising `ValueError` (and its subclass `UnicodeDecodeError`) is
  modelled by `Except DecodeErr`; the constructors of `DecodeErr` are in
  one-to-one correspondence with the `raise` sites of the source.
  An out-of-bounds buffer read (`struct.error` / `IndexError`, which the
  source never triggers because every read is bounds-checked first) is the
  distinguished constructor `oob`.
-/

namespace PrusaBgcode

/-- Python `bytes` / byte buffers: lists of byte values. -/
abbrev Bytes := List Nat

/-- All entries of a byte buffer are genuine bytes (below 256). -/
def BytesOk (l : Bytes) : Prop := ∀ b ∈ l, b < 256

instance : DecidablePred BytesOk := fun l =>
  inferInstanceAs (Decidable (∀ b ∈ l, b < 256))

/-! ## Little/big-endian packing and reading (`struct.pack` / `unpack_from`) -/

/-- `struct.pack("<H", n)`. -/
def u16le (n : Nat) : Bytes := [n % 256, n / 256 % 256]

/-- `struct.pack("<I", n)`. -/
def u32le (n : Nat) : Bytes :=
  [n % 256, n / 256 % 256, n / 65536 % 256, n / 16777216 % 256]

/-- `struct.pack(">I", n)` (big-endian, used by the PNG builder). -/
def u32be (n : Nat) : Bytes :=
  [n / 16777216 % 256, n / 65536 % 256, n / 256 % 256, n % 256]

/-- Read the byte at index `i` (0 when out of range; reads are always
    guarded by explicit bounds checks before use). -/
def byteAt (data : Bytes) (i : Nat) : Nat := data.getD i 0

/-- `struct.unpack_from("<H", data, i)`: `none` models the `struct.error`
    raised on an out-of-range read. -/
def readU16 (data : Bytes) (i : Nat) : Option Nat :=
  if i + 2 ≤ data.length then some (byteAt data i + 256 * byteAt data (i+1))
  else none

/-- `struct.unpack_from("<I", data, i)`. -/
def readU32 (data : Bytes) (i : Nat) : Option Nat :=
  if i + 4 ≤ data.length then
    some (byteAt data i + 256 * byteAt data (i+1)
          + 65536 * byteAt data (i+2) + 16777216 * byteAt data (i+3))
  else none

/-- `struct.unpack_from(">I", data, i)` (big-endian, PNG chunk fields). -/
def readU32be (data : Bytes) (i : Nat) : Option Nat :=
  if i + 4 ≤ data.length then
    some (16777216 * byteAt data i + 65536 * byteAt data (i+1)
          + 256 * byteAt data (i+2) + byteAt data (i+3))
  else none

/-- Python slice `data[a:b]` (clamping, never raising). -/
def slice (data : Bytes) (a b : Nat) : Bytes := (data.drop a).take (b - a)

/-! ## CRC32 (zlib’s `crc32(data, prev) & 0xFFFFFFFF`) -/

/-- One shift-and-conditionally-xor round of the reflected CRC-32
    (polynomial `0xEDB88320`). -/
def crcRound (c : Nat) : Nat :=
  if c % 2 = 1 then (c / 2) ^^^ 0xEDB88320 else c / 2

/-- Fold one byte into the running CRC state: xor the byte into the low
    bits, then eight `crcRound`s. -/
def crcByte (c b : Nat) : Nat := crcRound^[8] (c ^^^ (b % 256))

/-- `zlib.crc32(data, prev) & 0xFFFFFFFF`.  The seed `prev` lets the source
    fold the CRC over header, params, and payload in sequence. -/
def crc32 (data : Bytes) (prev : Nat) : Nat :=
  (data.foldl crcByte ((prev % 4294967296) ^^^ 0xFFFFFFFF)) ^^^ 0xFFFFFFFF

/-! ## UTF-8 validity (Python’s strict `bytes.decode("utf-8")`) -/

/-- A continuation byte is in `0x80 ..= 0xBF`. -/
def isCont (b : Nat) : Bool := 128 ≤ b && b ≤ 191

/-- Strict RFC-3629 UTF-8 validity, exactly the byte sequences Python's
    `bytes.decode("utf-8")` accepts (no overlongs, no surrogates, max
    `U+10FFFF`). -/
def utf8Valid : Bytes → Bool
  | [] => true
  | b :: rest =>
    if b < 128 then utf8Valid rest
    else if 194 ≤ b && b ≤ 223 then
      match rest with
      | c :: rest2 => isCont c && utf8Valid rest2
      | [] => false
    else if 224 ≤ b && b ≤ 239 then
      match rest with
      | c :: d :: rest3 =>
        (if b = 224 then 160 ≤ c && c ≤ 191
         else if b = 237 then 128 ≤ c && c ≤ 159
         else isCont c) && isCont d && utf8Valid rest3
      | _ => false
    else if 240 ≤ b && b ≤ 244 then
      match rest with
      | c :: d :: e :: rest4 =>
        (if b = 240 then 144 ≤ c && c ≤ 191
         else if b = 244 then 128 ≤ c && c ≤ 143
         else isCont c) && isCont d && isCont e && utf8Valid rest4
      | _ => false
    else false

/-! ## The encoder: `_write_bgcode` -/

/-- The `b"GCDE"` magic. -/
def MAGIC : Bytes := [71, 67, 68, 69]

/-- 10-byte file header: `MAGIC + struct.pack("<IH", VERSION, CKSUM_CRC32)`
    with `VERSION = 1` and `CKSUM_CRC32 = 1`. -/
def fileHeader : Bytes := MAGIC ++ u32le 1 ++ u16le 1

/-- `_block(btype, params, data, compress=False)` — the only form
    `_write_bgcode` ever uses (every call passes `compress=False`):
    8-byte header, uncompressed params, raw payload, and a CRC32 folded
    over header, params, payload in sequence. -/
def block (btype : Nat) (params data : Bytes) : Bytes :=
  let hdr := u16le btype ++ u16le 0 ++ u32le data.length
  let cksum := crc32 data (crc32 params (crc32 hdr 0))
  hdr ++ params ++ data ++ u32le cksum

/-- UTF-8 bytes of `"Producer=prusa_pa_calibration\n"` — the INI text of the
    FileMetadata block. -/
def fileMetaIni : Bytes :=
  [80, 114, 111, 100, 117, 99, 101, 114, 61, 112, 114, 117, 115, 97, 95, 112,
   97, 95, 99, 97, 108, 105, 98, 114, 97, 116, 105, 111, 110, 10]

/-- UTF-8 bytes of `"generator=prusa_pa_calibration\n"` — the INI text of the
    PrintMetadata block. -/
def printMetaIni : Bytes :=
  [103, 101, 110, 101, 114, 97, 116, 111, 114, 61, 112, 114, 117, 115, 97, 95,
   112, 97, 95, 99, 97, 108, 105, 98, 114, 97, 116, 105, 111, 110, 10]

/-- `_meta_block(btype, fields)`: params = `pack("<H", ENC_INI)`,
    payload = the INI text bytes. -/
def meta_block (btype : Nat) (ini : Bytes) : Bytes := block btype (u16le 0) ini

/-- `_thumb_block(tw, th, png_bytes)`: 6-byte params
    `pack("<HHH", THUMB_FMT_PNG, tw, th)`, uncompressed PNG payload. -/
def thumb_block (tw th : Nat) (png : Bytes) : Bytes :=
  block 5 (u16le 0 ++ u16le tw ++ u16le th) png

/-- The bytes `_write_bgcode(gcode_text, dest, thumbnails)` writes to `dest`
    (the file/stream write itself is I/O and out of scope; the function's
    return value is the length of this list). -/
def write_bgcode (gcodeText : Bytes) (thumbnails : List (Nat × Nat × Bytes)) :
    Bytes :=
  fileHeader
  ++ meta_block 0 fileMetaIni
  ++ meta_block 3 []
  ++ (thumbnails.map (fun t => thumb_block t.1 t.2.1 t.2.2)).flatten
  ++ meta_block 4 printMetaIni
  ++ meta_block 2 []
  ++ block 1 (u16le 0) gcodeText

/-! ## The decoder: `bgcode_to_ascii` -/

/-- One constructor per `raise` site of `bgcode_to_ascii`, plus the two
    modelling artifacts `oob` (out-of-bounds read — never produced, since
    every read is guarded) and `fuelOut` (fuel exhaustion — never produced,
    since the initial fuel always suffices). -/
inductive DecodeErr : Type where
  | tooShort (n : Nat)
  | badMagic (got : Bytes)
  | truncatedHeader (pos : Nat)
  | truncatedPayload (pos need : Nat)
  | crcMismatch (btype pos computed stored : Nat)
  | unknownCompression (comp pos : Nat)
  | gcodeCompression (comp pos : Nat)
  | deflateFailed (pos : Nat)
  | badEncoding (enc pos : Nat)
  | badUtf8 (pos : Nat)
  | noGcodeBlocks
  | oob (i : Nat)
  | fuelOut
deriving DecidableEq, Repr

instance : DecidableEq (Except DecodeErr Bytes) := fun a b => by
  cases a <;> cases b
  case error.error e1 e2 => exact decidable_of_iff (e1 = e2) (by simp)
  case ok.ok v1 v2 => exact decidable_of_iff (v1 = v2) (by simp)
  all_goals exact isFalse (by intro h; cases h)

/-- The body of the decoder's `while pos < len(data)` loop, with explicit
    fuel.  `inflate` models `zlib.decompress` (`none` = `zlib.error`).
    `parts` accumulates the decoded GCode payloads in file order. -/
def decodeLoop (inflate : Bytes → Option Bytes) (data : Bytes) :
    Nat → Nat → List Bytes → Except DecodeErr (List Bytes)
  | 0, _, _ => .error .fuelOut
  | fuel+1, pos, parts =>
    if pos < data.length then
      if pos + 8 > data.length then .error (.truncatedHeader pos)
      else
        match readU16 data pos, readU16 data (pos+2), readU32 data (pos+4) with
        | some btype, some comp, some uncompSize =>
          let hdrInfo : Except DecodeErr (Nat × Nat) :=
            if comp = 0 then .ok (uncompSize, 8)
            else if comp = 1 ∨ comp = 2 ∨ comp = 3 then
              if pos + 12 > data.length then .error (.truncatedHeader pos)
              else
                match readU32 data (pos+8) with
                | some cs => .ok (cs, 12)
                | none => .error (.oob (pos+8))
            else .error (.unknownCompression comp pos)
          match hdrInfo with
          | .error e => .error e
          | .ok (compSize, hdrLen) =>
            let paramsLen := if btype = 5 then 6 else 2
            let paramsStart := pos + hdrLen
            let payloadStart := paramsStart + paramsLen
            let payloadEnd := payloadStart + compSize
            if payloadEnd + 4 > data.length then
              .error (.truncatedPayload pos (payloadEnd + 4 - data.length))
            else
              match readU32 data payloadEnd with
              | none => .error (.oob payloadEnd)
              | some storedCrc =>
                let computedCrc := crc32 (slice data pos payloadEnd) 0
                if computedCrc ≠ storedCrc then
                  .error (.crcMismatch btype pos computedCrc storedCrc)
                else if btype = 1 then
                  match readU16 data paramsStart with
                  | none => .error (.oob paramsStart)
                  | some enc =>
                    let payload := slice data payloadStart payloadEnd
                    let rawRes : Except DecodeErr Bytes :=
                      if comp = 0 then .ok payload
                      else if comp = 1 then
                        match inflate payload with
                        | some r => .ok r
                        | none => .error (.deflateFailed pos)
                      else .error (.gcodeCompression comp pos)
                    match rawRes with
                    | .error e => .error e
                    | .ok raw =>
                      if enc ≠ 0 then .error (.badEncoding enc pos)
                      else if utf8Valid raw then
                        decodeLoop inflate data fuel (payloadEnd + 4)
                          (parts ++ [raw])
                      else .error (.badUtf8 pos)
                else decodeLoop inflate data fuel (payloadEnd + 4) parts
        | _, _, _ => .error (.oob pos)
    else .ok parts

/-- `bgcode_to_ascii(data)`: validate length and magic, walk every block,
    and return the concatenation of all GCode payloads. -/
def bgcode_to_ascii (inflate : Bytes → Option Bytes) (data : Bytes) :
    Except DecodeErr Bytes :=
  if data.length < 10 then .error (.tooShort data.length)
  else if data.take 4 ≠ MAGIC then .error (.badMagic (data.take 4))
  else
    match decodeLoop inflate data (data.length + 1) 10 [] with
    | .error e => .error e
    | .ok parts =>
      if parts.isEmpty then .error .noGcodeBlocks else .ok parts.flatten

/-! ## Basic facts about packing, reading and slicing -/

theorem length_u16le (n : Nat) : (u16le n).length = 2 := rfl

theorem length_u32le (n : Nat) : (u32le n).length = 4 := rfl

theorem length_u32be (n : Nat) : (u32be n).length = 4 := rfl

theorem byteAt_append_right (a b : Bytes) (i : Nat) (h : a.length ≤ i) :
    byteAt (a ++ b) i = byteAt b (i - a.length) := by
  simp [byteAt, List.getD_eq_getElem?_getD, List.getElem?_append_right h]

theorem readU16_append_right (a b : Bytes) (i : Nat) (h : a.length ≤ i) :
    readU16 (a ++ b) i = readU16 b (i - a.length) := by
  unfold readU16
  rw [byteAt_append_right a b i h, byteAt_append_right a b (i+1) (by omega)]
  simp only [List.length_append]
  have h1 : i + 1 - a.length = i - a.length + 1 := by omega
  rw [h1]
  congr 1
  simp only [eq_iff_iff]
  omega

theorem readU32_append_right (a b : Bytes) (i : Nat) (h : a.length ≤ i) :
    readU32 (a ++ b) i = readU32 b (i - a.length) := by
  unfold readU32
  rw [byteAt_append_right a b i h, byteAt_append_right a b (i+1) (by omega),
      byteAt_append_right a b (i+2) (by omega), byteAt_append_right a b (i+3) (by omega)]
  simp only [List.length_append]
  have h1 : i + 1 - a.length = i - a.length + 1 := by omega
  have h2 : i + 2 - a.length = i - a.length + 2 := by omega
  have h3 : i + 3 - a.length = i - a.length + 3 := by omega
  rw [h1, h2, h3]
  congr 1
  simp only [eq_iff_iff]
  omega

theorem slice_append_right (a b : Bytes) (p q : Nat) (h : a.length ≤ p) :
    slice (a ++ b) p q = slice b (p - a.length) (q - a.length) := by
  obtain ⟨k, rfl⟩ : ∃ k, p = a.length + k := ⟨p - a.length, by omega⟩
  unfold slice
  rw [List.drop_append]
  rw [show a.length + k - a.length = k from by omega]
  congr 1
  omega

theorem readU16_u16le (n : Nat) (rest : Bytes) :
    readU16 (u16le n ++ rest) 0 = some (n % 65536) := by
  simp only [readU16, u16le, byteAt, List.cons_append, List.length_cons,
    List.getD_cons_zero, List.getD_cons_succ, List.nil_append]
  rw [if_pos (by omega)]
  congr 1
  omega

theorem readU32_u32le (n : Nat) (rest : Bytes) :
    readU32 (u32le n ++ rest) 0 = some (n % 4294967296) := by
  simp only [readU32, u32le, byteAt, List.cons_append, List.length_cons,
    List.getD_cons_zero, List.getD_cons_succ, List.nil_append]
  rw [if_pos (by omega)]
  congr 1
  omega

/-! ## CRC32: bounds, append-folding, and sensitivity to single-byte changes -/

theorem crcRound_lt (c : Nat) (h : c < 4294967296) : crcRound c < 4294967296 := by
  unfold crcRound
  split
  · exact @Nat.xor_lt_two_pow _ _ 32 (by omega) (by norm_num)
  · omega

theorem crcRound_iter_lt (c : Nat) (h : c < 4294967296) :
    crcRound^[8] c < 4294967296 := by
  have : ∀ k (x : Nat), x < 4294967296 → crcRound^[k] x < 4294967296 := by
    intro k
    induction k with
    | zero => intro x hx; simpa using hx
    | succ k ih =>
      intro x hx
      rw [Function.iterate_succ_apply]
      exact ih _ (crcRound_lt x hx)
  exact this 8 c h

theorem crcByte_lt (c b : Nat) (h : c < 4294967296) : crcByte c b < 4294967296 := by
  unfold crcByte
  exact crcRound_iter_lt _ (@Nat.xor_lt_two_pow _ _ 32 h (by omega))

theorem crcFold_lt (l : Bytes) (c : Nat) (h : c < 4294967296) :
    l.foldl crcByte c < 4294967296 := by
  induction l generalizing c with
  | nil => simpa using h
  | cons b l ih => exact ih _ (crcByte_lt c b h)

theorem crc32_lt (data : Bytes) (prev : Nat) : crc32 data prev < 4294967296 := by
  unfold crc32
  refine @Nat.xor_lt_two_pow _ _ 32 ?_ (by norm_num)
  exact crcFold_lt _ _ (@Nat.xor_lt_two_pow _ _ 32 (Nat.mod_lt _ (by norm_num)) (by norm_num))

theorem crc32_append (a b : Bytes) (prev : Nat) :
    crc32 (a ++ b) prev = crc32 b (crc32 a prev) := by
  unfold crc32
  rw [List.foldl_append]
  congr 2
  have hlt : a.foldl crcByte ((prev % 4294967296) ^^^ 4294967295) < 4294967296 :=
    crcFold_lt _ _ (@Nat.xor_lt_two_pow _ _ 32 (Nat.mod_lt _ (by norm_num)) (by norm_num))
  have hmod : (List.foldl crcByte ((prev % 4294967296) ^^^ 4294967295) a ^^^ 4294967295)
      % 4294967296
      = List.foldl crcByte ((prev % 4294967296) ^^^ 4294967295) a ^^^ 4294967295 :=
    Nat.mod_eq_of_lt (@Nat.xor_lt_two_pow _ _ 32 hlt (by norm_num))
  rw [hmod, Nat.xor_assoc, Nat.xor_self, Nat.xor_zero]

theorem readU16_at (a b : Bytes) (n i : Nat) (h : i = a.length) :
    readU16 (a ++ (u16le n ++ b)) i = some (n % 65536) := by
  subst h
  rw [readU16_append_right _ _ _ le_rfl, Nat.sub_self, readU16_u16le]

theorem readU32_at (a b : Bytes) (n i : Nat) (h : i = a.length) :
    readU32 (a ++ (u32le n ++ b)) i = some (n % 4294967296) := by
  subst h
  rw [readU32_append_right _ _ _ le_rfl, Nat.sub_self, readU32_u32le]

theorem slice_at (a b c : Bytes) (i j : Nat)
    (hi : i = a.length) (hj : j = a.length + b.length) :
    slice (a ++ (b ++ c)) i j = b := by
  subst hi hj
  rw [slice_append_right _ _ _ _ le_rfl, Nat.sub_self,
      show a.length + b.length - a.length = b.length from by omega]
  unfold slice
  simp [List.take_left]

/-! ## Stepping the decoder over one well-formed serialized block -/

theorem length_block (bt : Nat) (p d : Bytes) :
    (block bt p d).length = 12 + p.length + d.length := by
  simp only [block, List.length_append, length_u16le, length_u32le]
  omega

/-- Loop exit: once the cursor reaches the end of the buffer, the loop
    returns the accumulated parts (with any remaining fuel). -/
theorem decodeLoop_stop (inflate : Bytes → Option Bytes) (data : Bytes)
    (fuel pos : Nat) (parts : List Bytes) (h : data.length ≤ pos) :
    decodeLoop inflate data (fuel+1) pos parts = .ok parts := by
  simp only [decodeLoop]
  rw [if_neg (by omega)]

/-- One iteration of the decoder across a serialized `block` (as the encoder
    emits them: compression 0, correct sizes, valid checksum): the block is
    accepted, a GCode block appends its payload, any other block is skipped,
    and the cursor advances to the end of the block. -/
theorem decodeLoop_step (inflate : Bytes → Option Bytes) (pre rest : Bytes)
    (bt : Nat) (p d : Bytes) (parts : List Bytes) (fuel : Nat)
    (hb : bt < 65536) (hp : p.length = if bt = 5 then 6 else 2)
    (hd : d.length < 4294967296)
    (henc : bt = 1 → p = u16le 0) (hutf : bt = 1 → utf8Valid d = true) :
    decodeLoop inflate (pre ++ (block bt p d ++ rest)) (fuel+1) pre.length parts
      = decodeLoop inflate (pre ++ (block bt p d ++ rest)) fuel
          ((pre ++ block bt p d).length)
          (if bt = 1 then parts ++ [d] else parts) := by
  set ck := crc32 d (crc32 p (crc32 (u16le bt ++ u16le 0 ++ u32le d.length) 0)) with hckdef
  have hblock : block bt p d
      = (u16le bt ++ u16le 0 ++ u32le d.length) ++ p ++ (d ++ u32le ck) := by
    simp only [block, ← hckdef]
    simp [List.append_assoc]
  set D := pre ++ (block bt p d ++ rest) with hD
  have hlenD : D.length = pre.length + (12 + p.length + d.length) + rest.length := by
    simp only [hD, List.length_append, length_block]
    omega
  have hplen : p.length ≤ 6 := by rw [hp]; split <;> omega
  have hr0 : readU16 D pre.length = some bt := by
    rw [show D = pre ++ (u16le bt ++ (u16le 0 ++ u32le d.length ++ p ++ (d ++ u32le ck) ++ rest))
        from by rw [hD, hblock]; simp [List.append_assoc]]
    rw [readU16_at _ _ _ _ rfl, Nat.mod_eq_of_lt hb]
  have hr2 : readU16 D (pre.length + 2) = some 0 := by
    rw [show D = (pre ++ u16le bt) ++ (u16le 0 ++ (u32le d.length ++ p ++ (d ++ u32le ck) ++ rest))
        from by rw [hD, hblock]; simp [List.append_assoc]]
    rw [readU16_at _ _ _ _ (by simp [u16le]), Nat.zero_mod]
  have hr4 : readU32 D (pre.length + 4) = some d.length := by
    rw [show D = (pre ++ u16le bt ++ u16le 0) ++ (u32le d.length ++ (p ++ (d ++ u32le ck) ++ rest))
        from by rw [hD, hblock]; simp [List.append_assoc]]
    rw [readU32_at _ _ _ _ (by simp [u16le]), Nat.mod_eq_of_lt hd]
  have hsl1 : slice D pre.length (pre.length + 8 + p.length + d.length)
      = (u16le bt ++ u16le 0 ++ u32le d.length) ++ p ++ d := by
    rw [show D = pre ++ (((u16le bt ++ u16le 0 ++ u32le d.length) ++ p ++ d) ++ (u32le ck ++ rest))
        from by rw [hD, hblock]; simp [List.append_assoc]]
    rw [slice_at _ _ _ _ _ rfl (by simp only [List.length_append, length_u16le, length_u32le] <;> omega)]
  have hr5 : readU32 D (pre.length + 8 + p.length + d.length) = some ck := by
    rw [show D = (pre ++ ((u16le bt ++ u16le 0 ++ u32le d.length) ++ p ++ d)) ++ (u32le ck ++ rest)
        from by rw [hD, hblock]; simp [List.append_assoc]]
    rw [readU32_at _ _ _ _ (by simp only [List.length_append, length_u16le, length_u32le] <;> omega), Nat.mod_eq_of_lt (crc32_lt _ _)]
  have hcrc : crc32 ((u16le bt ++ u16le 0 ++ u32le d.length) ++ p ++ d) 0 = ck := by
    rw [crc32_append, crc32_append, hckdef]
  have hnext : (pre ++ block bt p d).length = pre.length + 8 + p.length + d.length + 4 := by
    simp only [List.length_append, length_block]
    omega
  simp only [decodeLoop]
  rw [if_pos (by omega), if_neg (by omega), hr0, hr2, hr4]
  simp only [reduceIte]
  rw [← hp]
  rw [if_neg (show ¬ (pre.length + 8 + p.length + d.length + 4 > D.length) from by omega)]
  rw [hr5, hsl1, hcrc]
  dsimp only
  rw [if_neg (show ¬ (ck ≠ ck) from by simp)]
  by_cases hbt : bt = 1
  · have hpu : p = u16le 0 := henc hbt
    have hr6 : readU16 D (pre.length + 8) = some 0 := by
      rw [show D = (pre ++ (u16le bt ++ u16le 0 ++ u32le d.length)) ++ (u16le 0 ++ (d ++ u32le ck ++ rest))
          from by rw [hD, hblock, hpu]; simp [List.append_assoc]]
      have h6 := readU16_at (pre ++ (u16le bt ++ u16le 0 ++ u32le d.length))
        (d ++ u32le ck ++ rest) 0 (pre.length + 8)
        (by simp only [List.length_append, length_u16le, length_u32le] <;> omega)
      rw [Nat.zero_mod] at h6
      exact h6
    have hsl2 : slice D (pre.length + 8 + p.length) (pre.length + 8 + p.length + d.length) = d := by
      rw [show D = (pre ++ ((u16le bt ++ u16le 0 ++ u32le d.length) ++ p)) ++ (d ++ (u32le ck ++ rest))
          from by rw [hD, hblock]; simp [List.append_assoc]]
      rw [slice_at _ _ _ _ _ (by simp only [List.length_append, length_u16le, length_u32le] <;> omega) (by simp only [List.length_append, length_u16le, length_u32le] <;> omega)]
    rw [if_pos hbt, if_pos hbt, hr6]
    dsimp only
    rw [hsl2, if_neg (show ¬ ((0:Nat) ≠ 0) from by simp), if_pos (hutf hbt), hnext]
  · rw [if_neg hbt, if_neg hbt, hnext]

/-! ## Decoding a container made of well-formed uncompressed blocks -/

/-- A well-formed `(block_type, params, payload)` triple, as the encoder
    emits it: 16-bit type, params length determined by the type (6 for
    Thumbnail, 2 otherwise), payload shorter than 2^32, and a GCode block
    carries the raw-text encoding selector and valid UTF-8 payload. -/
def WFBlock (x : Nat × Bytes × Bytes) : Prop :=
  x.1 < 65536 ∧ x.2.1.length = (if x.1 = 5 then 6 else 2)
  ∧ x.2.2.length < 4294967296
  ∧ (x.1 = 1 → x.2.1 = u16le 0 ∧ utf8Valid x.2.2 = true)

instance : DecidablePred WFBlock := fun x => by
  unfold WFBlock
  infer_instance

/-- Serialize a list of blocks back to back. -/
def serBlocks (bs : List (Nat × Bytes × Bytes)) : Bytes :=
  (bs.map (fun x => block x.1 x.2.1 x.2.2)).flatten

/-- The payloads of the GCode-type blocks, in list order. -/
def gcodeParts (bs : List (Nat × Bytes × Bytes)) : List Bytes :=
  (bs.filter (fun x => x.1 == 1)).map (fun x => x.2.2)

theorem serBlocks_nil : serBlocks [] = [] := rfl

theorem serBlocks_cons (x : Nat × Bytes × Bytes) (bs : List (Nat × Bytes × Bytes)) :
    serBlocks (x :: bs) = block x.1 x.2.1 x.2.2 ++ serBlocks bs := by
  simp [serBlocks]

theorem length_le_length_serBlocks (bs : List (Nat × Bytes × Bytes)) :
    bs.length ≤ (serBlocks bs).length := by
  induction bs with
  | nil => simp [serBlocks]
  | cons x bs ih =>
    rw [serBlocks_cons]
    simp only [List.length_cons, List.length_append, length_block]
    omega

/-- Walking a buffer that is a sequence of well-formed serialized blocks:
    the loop succeeds and appends exactly the GCode payloads, provided the
    fuel exceeds the number of blocks. -/
theorem decodeLoop_serBlocks (inflate : Bytes → Option Bytes)
    (bs : List (Nat × Bytes × Bytes)) (pre : Bytes) (parts : List Bytes)
    (k : Nat) (hwf : ∀ x ∈ bs, WFBlock x) :
    decodeLoop inflate (pre ++ serBlocks bs) (bs.length + (k+1)) pre.length parts
      = .ok (parts ++ gcodeParts bs) := by
  induction bs generalizing pre parts with
  | nil =>
    simp only [serBlocks_nil, List.append_nil, List.length_nil, Nat.zero_add]
    rw [decodeLoop_stop _ _ _ _ _ le_rfl]
    simp [gcodeParts]
  | cons x bs ih =>
    obtain ⟨bt, p, d⟩ := x
    obtain ⟨hb, hp, hd, hgc⟩ := hwf _ (List.mem_cons_self _ _)
    rw [serBlocks_cons]
    rw [show pre ++ (block bt p d ++ serBlocks bs)
        = pre ++ (block bt p d ++ serBlocks bs) from rfl]
    rw [show (bt, p, d) :: bs = (bt, p, d) :: bs from rfl]
    simp only [List.length_cons]
    rw [show bs.length + 1 + (k + 1) = (bs.length + (k+1)) + 1 from by omega]
    rw [decodeLoop_step inflate pre (serBlocks bs) bt p d parts (bs.length + (k+1))
        hb hp hd (fun h => (hgc h).1) (fun h => (hgc h).2)]
    rw [show pre ++ (block bt p d ++ serBlocks bs)
        = (pre ++ block bt p d) ++ serBlocks bs from by simp [List.append_assoc]]
    rw [ih (pre ++ block bt p d) _ (fun y hy => hwf y (List.mem_cons_of_mem _ hy))]
    congr 1
    simp only [gcodeParts, List.filter_cons]
    by_cases hbt : bt = 1
    · subst hbt
      simp [List.append_assoc]
    · have : ((bt, p, d).1 == 1) = false := by simpa using hbt
      simp only [this]
      rw [if_neg hbt]
      simp

/-- Decoding `fileHeader ++ serialized well-formed blocks`: full
    characterization of `bgcode_to_ascii` on such containers. -/
theorem bgcode_to_ascii_serBlocks (inflate : Bytes → Option Bytes)
    (bs : List (Nat × Bytes × Bytes)) (hwf : ∀ x ∈ bs, WFBlock x) :
    bgcode_to_ascii inflate (fileHeader ++ serBlocks bs)
      = if (gcodeParts bs).isEmpty then .error .noGcodeBlocks
        else .ok (gcodeParts bs).flatten := by
  have hfh : fileHeader.length = 10 := rfl
  have hlen : (fileHeader ++ serBlocks bs).length = 10 + (serBlocks bs).length := by
    simp [hfh]
  unfold bgcode_to_ascii
  rw [if_neg (by omega)]
  rw [if_neg (by
    simp only [ne_eq, Decidable.not_not]
    rw [show fileHeader ++ serBlocks bs = MAGIC ++ (u32le 1 ++ u16le 1 ++ serBlocks bs)
        from by simp [fileHeader, List.append_assoc]]
    rw [List.take_append_eq_append_take]
    simp [MAGIC])]
  have hge := length_le_length_serBlocks bs
  rw [show (fileHeader ++ serBlocks bs).length + 1
      = bs.length + ((10 + (serBlocks bs).length - bs.length) + 1) from by omega]
  rw [show (10:Nat) = fileHeader.length from rfl]
  rw [decodeLoop_serBlocks inflate bs fileHeader [] _ hwf]
  simp

/-! ## The encoder's output as a block list -/

/-- The block sequence `_write_bgcode` emits: FileMetadata, PrinterMetadata,
    one Thumbnail per input thumbnail, PrintMetadata, SlicerMetadata, GCode. -/
def encBlocks (T : Bytes) (L : List (Nat × Nat × Bytes)) :
    List (Nat × Bytes × Bytes) :=
  (0, u16le 0, fileMetaIni) :: (3, u16le 0, []) ::
  (L.map (fun t => (5, u16le 0 ++ u16le t.1 ++ u16le t.2.1, t.2.2))
   ++ [(4, u16le 0, printMetaIni), (2, u16le 0, ([] : Bytes)), (1, u16le 0, T)])

theorem write_bgcode_eq_serBlocks (T : Bytes) (L : List (Nat × Nat × Bytes)) :
    write_bgcode T L = fileHeader ++ serBlocks (encBlocks T L) := by
  simp only [write_bgcode, encBlocks, serBlocks, meta_block, thumb_block,
    List.map_cons, List.map_append, List.flatten_cons, List.flatten_append,
    List.map_map]
  simp only [Function.comp_def, List.append_assoc]
  simp

theorem wf_encBlocks (T : Bytes) (L : List (Nat × Nat × Bytes))
    (hT : utf8Valid T = true) (hTlen : T.length < 4294967296)
    (hL : ∀ t ∈ L, t.2.2.length < 4294967296) :
    ∀ x ∈ encBlocks T L, WFBlock x := by
  intro x hx
  simp only [encBlocks, List.mem_cons, List.mem_append, List.mem_map] at hx
  rcases hx with rfl | rfl | ⟨t, ht, rfl⟩ | hx
  · exact ⟨by norm_num, by simp [u16le], by simp [fileMetaIni], by simp⟩
  · exact ⟨by norm_num, by simp [u16le], by simp, by simp⟩
  · exact ⟨by norm_num, by simp [u16le], hL t ht, by simp⟩
  · simp only [List.mem_cons, List.not_mem_nil, or_false] at hx
    rcases hx with rfl | rfl | rfl
    · exact ⟨by norm_num, by simp [u16le], by simp [printMetaIni], by simp⟩
    · exact ⟨by norm_num, by simp [u16le], by simp, by simp⟩
    · exact ⟨by norm_num, by simp [u16le], hTlen, fun _ => ⟨rfl, hT⟩⟩

theorem gcodeParts_encBlocks (T : Bytes) (L : List (Nat × Nat × Bytes)) :
    gcodeParts (encBlocks T L) = [T] := by
  simp [gcodeParts, encBlocks, List.filter_cons, List.filter_append]
  intro a a1 b x x1 x2 hmem h5 hp hb
  omega

/-- **C1 (round-trip)** — decoding the container written by the encoder
    returns exactly the G-code text: for every text `T` (as UTF-8 bytes)
    and thumbnail list `L`, `bgcode_to_ascii (_write_bgcode T L) = T`
    (thumbnails are not returned).  The bounds are the domain on which
    `struct.pack` accepts the encoder's field values. -/
theorem C1_round_trip (inflate : Bytes → Option Bytes) (T : Bytes)
    (L : List (Nat × Nat × Bytes))
    (hT : utf8Valid T = true) (hTlen : T.length < 4294967296)
    (hwh : ∀ t ∈ L, t.1 < 65536 ∧ t.2.1 < 65536)
    (hL : ∀ t ∈ L, t.2.2.length < 4294967296) :
    bgcode_to_ascii inflate (write_bgcode T L) = .ok T := by
  rw [write_bgcode_eq_serBlocks,
    bgcode_to_ascii_serBlocks inflate _ (wf_encBlocks T L hT hTlen hL),
    gcodeParts_encBlocks]
  simp

/-- Witness for C1 at `T = "G28\n"` with one 2×2 thumbnail. -/
theorem C1_round_trip_witness :
    (utf8Valid [71, 50, 56, 10] = true
      ∧ ([71, 50, 56, 10] : Bytes).length < 4294967296
      ∧ (∀ t ∈ [((2:Nat), (2:Nat), ([1, 2, 3] : Bytes))], t.1 < 65536 ∧ t.2.1 < 65536)
      ∧ (∀ t ∈ [((2:Nat), (2:Nat), ([1, 2, 3] : Bytes))], t.2.2.length < 4294967296))
    ∧ bgcode_to_ascii (fun _ => none)
        (write_bgcode [71, 50, 56, 10] [(2, 2, [1, 2, 3])])
      = .ok [71, 50, 56, 10] :=
  ⟨⟨by decide, by decide, by decide, by decide⟩,
   C1_round_trip (fun _ => none) [71, 50, 56, 10] [(2, 2, [1, 2, 3])]
     (by decide) (by decide) (by decide) (by decide)⟩

/-- **C6 (determinism and input-distinction)** — the encoder is a pure
    function of its inputs (byte-identical output on identical inputs; the
    source embeds no timestamp or randomness, which the shallow embedding
    makes definitional), and distinct G-code texts always produce distinct
    containers. -/
theorem C6_determinism :
    (∀ (T : Bytes) (L : List (Nat × Nat × Bytes)),
        write_bgcode T L = write_bgcode T L)
    ∧ (∀ (L : List (Nat × Nat × Bytes)) (T1 T2 : Bytes), T1 ≠ T2 →
        write_bgcode T1 L ≠ write_bgcode T2 L) := by
  refine ⟨fun T L => rfl, fun L T1 T2 hne h => hne ?_⟩
  rw [write_bgcode_eq_serBlocks, write_bgcode_eq_serBlocks] at h
  have h2 := List.append_cancel_left h
  simp only [encBlocks, serBlocks_cons, List.append_assoc] at h2
  have h3 := List.append_cancel_left (List.append_cancel_left h2)
  rw [serBlocks, serBlocks, List.map_append, List.map_append,
    List.flatten_append, List.flatten_append] at h3
  have h4 := List.append_cancel_left h3
  simp only [List.map_cons, List.map_nil, List.flatten_cons, List.flatten_nil,
    List.append_nil, List.append_assoc] at h4
  have h5 := List.append_cancel_left (List.append_cancel_left h4)
  -- h5 : block 1 (u16le 0) T1 ++ [] = block 1 (u16le 0) T2 ++ []
  simp only [block, List.append_assoc] at h5
  have hlen : T1.length = T2.length := by
    have := congrArg List.length h5
    simp only [List.length_append, length_u16le, length_u32le] at this
    omega
  rw [hlen] at h5
  have h6 := List.append_cancel_left (List.append_cancel_left
    (List.append_cancel_left (List.append_cancel_left h5)))
  exact (List.append_inj h6 hlen).1

/-- Witness for C6's second conjunct at two concrete distinct texts. -/
theorem C6_determinism_witness :
    (([71] : Bytes) ≠ [72])
    ∧ write_bgcode [71] [] ≠ write_bgcode [72] [] :=
  ⟨by decide, C6_determinism.2 [] [71] [72] (by decide)⟩

/-! ## Spec-side re-parser: the sequence of block types of a container

Modelled from the spec (§3 "required block order" and §5 wire grammar):
an independent walk of the container's framing — magic, then per block the
type/compression fields, the size field(s), the type-determined params
length, payload, and 4 trailing checksum bytes — collecting the
`block_type` of every block in file order (checksums not verified; this is
the layout judge the encoder's output is checked against). -/
def specBlockTypesLoop (data : Bytes) : Nat → Nat → Option (List Nat)
  | 0, _ => none
  | fuel+1, pos =>
    if pos < data.length then
      if pos + 8 > data.length then none
      else
        match readU16 data pos, readU16 data (pos+2), readU32 data (pos+4) with
        | some btype, some comp, some uncompSize =>
          let hdrInfo : Option (Nat × Nat) :=
            if comp = 0 then some (uncompSize, 8)
            else if comp = 1 ∨ comp = 2 ∨ comp = 3 then
              if pos + 12 > data.length then none
              else
                match readU32 data (pos+8) with
                | some cs => some (cs, 12)
                | none => none
            else none
          match hdrInfo with
          | none => none
          | some (compSize, hdrLen) =>
            let paramsLen := if btype = 5 then 6 else 2
            let payloadEnd := pos + hdrLen + paramsLen + compSize
            if payloadEnd + 4 > data.length then none
            else (specBlockTypesLoop data fuel (payloadEnd + 4)).map
                   (fun ts => btype :: ts)
        | _, _, _ => none
    else some []

/-- Modelled from the spec: the list of block types of a container whose
    framing is fully well-formed (header plus a whole number of blocks),
    `none` otherwise. -/
def specBlockTypes (data : Bytes) : Option (List Nat) :=
  if 10 ≤ data.length ∧ data.take 4 = MAGIC then
    specBlockTypesLoop data (data.length + 1) 10
  else none

theorem specBlockTypesLoop_stop (data : Bytes) (fuel pos : Nat)
    (h : data.length ≤ pos) :
    specBlockTypesLoop data (fuel+1) pos = some [] := by
  simp only [specBlockTypesLoop]
  rw [if_neg (by omega)]

/-- The framing walker steps across one serialized `block` and records its
    type. -/
theorem specBlockTypesLoop_step (pre rest : Bytes) (bt : Nat) (p d : Bytes)
    (fuel : Nat) (hb : bt < 65536) (hp : p.length = if bt = 5 then 6 else 2)
    (hd : d.length < 4294967296) :
    specBlockTypesLoop (pre ++ (block bt p d ++ rest)) (fuel+1) pre.length
      = (specBlockTypesLoop (pre ++ (block bt p d ++ rest)) fuel
          ((pre ++ block bt p d).length)).map (fun ts => bt :: ts) := by
  set ck := crc32 d (crc32 p (crc32 (u16le bt ++ u16le 0 ++ u32le d.length) 0)) with hckdef
  have hblock : block bt p d
      = (u16le bt ++ u16le 0 ++ u32le d.length) ++ p ++ (d ++ u32le ck) := by
    simp only [block, ← hckdef]
    simp [List.append_assoc]
  set D := pre ++ (block bt p d ++ rest) with hD
  have hlenD : D.length = pre.length + (12 + p.length + d.length) + rest.length := by
    simp only [hD, List.length_append, length_block]
    omega
  have hplen : p.length ≤ 6 := by rw [hp]; split <;> omega
  have hr0 : readU16 D pre.length = some bt := by
    rw [show D = pre ++ (u16le bt ++ (u16le 0 ++ u32le d.length ++ p ++ (d ++ u32le ck) ++ rest))
        from by rw [hD, hblock]; simp [List.append_assoc]]
    rw [readU16_at _ _ _ _ rfl, Nat.mod_eq_of_lt hb]
  have hr2 : readU16 D (pre.length + 2) = some 0 := by
    rw [show D = (pre ++ u16le bt) ++ (u16le 0 ++ (u32le d.length ++ p ++ (d ++ u32le ck) ++ rest))
        from by rw [hD, hblock]; simp [List.append_assoc]]
    rw [readU16_at _ _ _ _ (by simp [u16le]), Nat.zero_mod]
  have hr4 : readU32 D (pre.length + 4) = some d.length := by
    rw [show D = (pre ++ u16le bt ++ u16le 0) ++ (u32le d.length ++ (p ++ (d ++ u32le ck) ++ rest))
        from by rw [hD, hblock]; simp [List.append_assoc]]
    rw [readU32_at _ _ _ _ (by simp only [List.length_append, length_u16le, length_u32le] <;> omega),
      Nat.mod_eq_of_lt hd]
  have hnext : (pre ++ block bt p d).length = pre.length + 8 + p.length + d.length + 4 := by
    simp only [List.length_append, length_block]
    omega
  simp only [specBlockTypesLoop]
  rw [if_pos (by omega), if_neg (by omega), hr0, hr2, hr4]
  simp only [reduceIte]
  rw [← hp]
  rw [if_neg (show ¬ (pre.length + 8 + p.length + d.length + 4 > D.length) from by omega)]
  rw [hnext]

/-- The framing walker over a sequence of well-formed serialized blocks
    returns exactly their type sequence. -/
theorem specBlockTypesLoop_serBlocks (bs : List (Nat × Bytes × Bytes))
    (pre : Bytes) (k : Nat) (hwf : ∀ x ∈ bs, WFBlock x) :
    specBlockTypesLoop (pre ++ serBlocks bs) (bs.length + (k+1)) pre.length
      = some (bs.map (fun x => x.1)) := by
  induction bs generalizing pre with
  | nil =>
    simp only [serBlocks_nil, List.append_nil, List.length_nil, Nat.zero_add]
    rw [specBlockTypesLoop_stop _ _ _ le_rfl]
    simp
  | cons x bs ih =>
    obtain ⟨bt, p, d⟩ := x
    obtain ⟨hb, hp, hd, -⟩ := hwf _ (List.mem_cons_self _ _)
    rw [serBlocks_cons]
    simp only [List.length_cons]
    rw [show bs.length + 1 + (k + 1) = (bs.length + (k+1)) + 1 from by omega]
    rw [specBlockTypesLoop_step pre (serBlocks bs) bt p d (bs.length + (k+1)) hb hp hd]
    rw [show pre ++ (block bt p d ++ serBlocks bs)
        = (pre ++ block bt p d) ++ serBlocks bs from by simp [List.append_assoc]]
    rw [ih (pre ++ block bt p d) (fun y hy => hwf y (List.mem_cons_of_mem _ hy))]
    simp

theorem specBlockTypes_serBlocks (bs : List (Nat × Bytes × Bytes))
    (hwf : ∀ x ∈ bs, WFBlock x) :
    specBlockTypes (fileHeader ++ serBlocks bs) = some (bs.map (fun x => x.1)) := by
  have hfh : fileHeader.length = 10 := rfl
  have hlen : (fileHeader ++ serBlocks bs).length = 10 + (serBlocks bs).length := by
    simp [hfh]
  unfold specBlockTypes
  rw [if_pos ⟨by omega, by
    rw [show fileHeader ++ serBlocks bs = MAGIC ++ (u32le 1 ++ u16le 1 ++ serBlocks bs)
        from by simp [fileHeader, List.append_assoc]]
    rw [List.take_append_eq_append_take]
    simp [MAGIC]⟩]
  have hge := length_le_length_serBlocks bs
  rw [show (fileHeader ++ serBlocks bs).length + 1
      = bs.length + ((10 + (serBlocks bs).length - bs.length) + 1) from by omega]
  rw [show (10:Nat) = fileHeader.length from rfl]
  exact specBlockTypesLoop_serBlocks bs fileHeader _ hwf

/-- **C5 (encoder block order)** — re-parsing the encoder's output yields
    exactly the block-type sequence FileMetadata(0), PrinterMetadata(3),
    one Thumbnail(5) per input thumbnail in list order (none at all when the
    list is empty), PrintMetadata(4), SlicerMetadata(2), and the single
    GCode(1) block last. -/
theorem C5_block_order (T : Bytes) (L : List (Nat × Nat × Bytes))
    (hT : utf8Valid T = true) (hTlen : T.length < 4294967296)
    (hL : ∀ t ∈ L, t.2.2.length < 4294967296) :
    specBlockTypes (write_bgcode T L)
      = some ([0, 3] ++ List.replicate L.length 5 ++ [4, 2, 1]) := by
  rw [write_bgcode_eq_serBlocks,
    specBlockTypes_serBlocks _ (wf_encBlocks T L hT hTlen hL)]
  have hmap : ∀ (l : List (Nat × Nat × Bytes)),
      (l.map (fun t => ((5:Nat), u16le 0 ++ u16le t.1 ++ u16le t.2.1, t.2.2))).map
        (fun x => x.1) = List.replicate l.length 5 := by
    intro l
    induction l with
    | nil => rfl
    | cons a l ih =>
      simp only [List.map_cons, List.length_cons, List.replicate_succ]
      rw [ih]
  simp only [encBlocks, List.map_cons, List.map_append, hmap L]
  simp

/-- Witness for C5: one thumbnail, text `"G28\n"`. -/
theorem C5_block_order_witness :
    (utf8Valid [71, 50, 56, 10] = true
      ∧ ([71, 50, 56, 10] : Bytes).length < 4294967296
      ∧ ∀ t ∈ [((2:Nat), (2:Nat), ([9] : Bytes))], t.2.2.length < 4294967296)
    ∧ specBlockTypes (write_bgcode [71, 50, 56, 10] [(2, 2, [9])])
      = some [0, 3, 5, 4, 2, 1] :=
  ⟨⟨by decide, by decide, by decide⟩, by
    have h := C5_block_order [71, 50, 56, 10] [(2, 2, [9])]
      (by decide) (by decide) (by decide)
    simpa using h⟩

/-- **C7 (decoder order-independence)** — the decoder does not assume the
    encoder's block order: for any list of well-formed blocks in any order
    (in particular with a GCode block before a PrintMetadata block) with at
    least one GCode block, decoding returns the concatenation of the GCode
    payloads in file order. -/
theorem C7_order_independence (inflate : Bytes → Option Bytes)
    (bs : List (Nat × Bytes × Bytes)) (hwf : ∀ x ∈ bs, WFBlock x)
    (hg : ∃ x ∈ bs, x.1 = 1) :
    bgcode_to_ascii inflate (fileHeader ++ serBlocks bs)
      = .ok (gcodeParts bs).flatten := by
  rw [bgcode_to_ascii_serBlocks inflate bs hwf]
  rw [if_neg ?_]
  obtain ⟨x, hx, hx1⟩ := hg
  simp only [List.isEmpty_iff, gcodeParts]
  intro hcon
  have : x ∈ (bs.filter (fun x => x.1 == 1)) := by
    rw [List.mem_filter]
    exact ⟨hx, by simpa using hx1⟩
  rw [List.map_eq_nil_iff] at hcon
  rw [hcon] at this
  exact List.not_mem_nil x this

/-- Witness for C7: a container whose GCode block precedes its
    PrintMetadata block still decodes to the GCode payload. -/
theorem C7_order_independence_witness :
    ((∀ x ∈ [((1:Nat), u16le 0, ([71] : Bytes)), ((4:Nat), u16le 0, ([] : Bytes))], WFBlock x)
      ∧ (∃ x ∈ [((1:Nat), u16le 0, ([71] : Bytes)), ((4:Nat), u16le 0, ([] : Bytes))], x.1 = 1))
    ∧ bgcode_to_ascii (fun _ => none)
        (fileHeader ++ serBlocks [(1, u16le 0, [71]), (4, u16le 0, [])])
      = .ok [71] := by
  refine ⟨⟨by decide, ⟨(1, u16le 0, [71]), by decide⟩⟩, ?_⟩
  have h := C7_order_independence (fun _ => none)
    [(1, u16le 0, [71]), (4, u16le 0, [])] (by decide)
    ⟨(1, u16le 0, [71]), by decide⟩
  simpa [gcodeParts] using h

/-! ## Hand-crafted blocks with a nonzero compression field (C2) -/

theorem readU16_some (data : Bytes) (i : Nat) (h : i + 2 ≤ data.length) :
    readU16 data i = some (byteAt data i + 256 * byteAt data (i+1)) :=
  if_pos h

/-- A hand-crafted block written with the 12-byte header form (two size
    fields, as the wire format prescribes for any nonzero compression
    value), arbitrary declared `uncompressed_size`, stored payload `payload`,
    and a valid trailing CRC32. -/
def rawBlock12 (btype comp uncompSize : Nat) (params payload : Bytes) : Bytes :=
  let hdr := u16le btype ++ u16le comp ++ u32le uncompSize ++ u32le payload.length
  let cksum := crc32 payload (crc32 params (crc32 hdr 0))
  hdr ++ params ++ payload ++ u32le cksum

theorem length_rawBlock12 (bt c u : Nat) (p d : Bytes) :
    (rawBlock12 bt c u p d).length = 16 + p.length + d.length := by
  simp only [rawBlock12, List.length_append, length_u16le, length_u32le]
  omega

/-- Stepping the decoder over a hand-crafted block whose compression field
    is 2 or 3 (the Heatshrink values): the 12-byte header is parsed, the
    checksum is verified, and then a GCode block raises the
    unsupported-GCode-compression error while any other block type is
    silently skipped. -/
theorem decodeLoop_rawBlock12_step (inflate : Bytes → Option Bytes)
    (pre rest : Bytes) (bt comp u : Nat) (p d : Bytes)
    (parts : List Bytes) (fuel : Nat)
    (hb : bt < 65536) (hcomp : comp = 2 ∨ comp = 3)
    (hp : p.length = if bt = 5 then 6 else 2)
    (hd : d.length < 4294967296) (hu : u < 4294967296) :
    decodeLoop inflate (pre ++ (rawBlock12 bt comp u p d ++ rest)) (fuel+1)
        pre.length parts
      = if bt = 1 then .error (.gcodeCompression comp pre.length)
        else decodeLoop inflate (pre ++ (rawBlock12 bt comp u p d ++ rest)) fuel
          ((pre ++ rawBlock12 bt comp u p d).length) parts := by
  have hcl : comp < 65536 := by rcases hcomp with rfl | rfl <;> norm_num
  set ck := crc32 d (crc32 p
    (crc32 (u16le bt ++ u16le comp ++ u32le u ++ u32le d.length) 0)) with hckdef
  have hblock : rawBlock12 bt comp u p d
      = (u16le bt ++ u16le comp ++ u32le u ++ u32le d.length) ++ p ++ (d ++ u32le ck) := by
    simp only [rawBlock12, ← hckdef]
    simp [List.append_assoc]
  set D := pre ++ (rawBlock12 bt comp u p d ++ rest) with hD
  have hlenD : D.length = pre.length + (16 + p.length + d.length) + rest.length := by
    simp only [hD, List.length_append, length_rawBlock12]
    omega
  have hplen : p.length ≤ 6 := by rw [hp]; split <;> omega
  have hr0 : readU16 D pre.length = some bt := by
    rw [show D = pre ++ (u16le bt ++ (u16le comp ++ u32le u ++ u32le d.length ++ p ++ (d ++ u32le ck) ++ rest))
        from by rw [hD, hblock]; simp [List.append_assoc]]
    rw [readU16_at _ _ _ _ rfl, Nat.mod_eq_of_lt hb]
  have hr2 : readU16 D (pre.length + 2) = some comp := by
    rw [show D = (pre ++ u16le bt) ++ (u16le comp ++ (u32le u ++ u32le d.length ++ p ++ (d ++ u32le ck) ++ rest))
        from by rw [hD, hblock]; simp [List.append_assoc]]
    rw [readU16_at _ _ _ _ (by simp [u16le]), Nat.mod_eq_of_lt hcl]
  have hr4 : readU32 D (pre.length + 4) = some u := by
    rw [show D = (pre ++ u16le bt ++ u16le comp) ++ (u32le u ++ (u32le d.length ++ p ++ (d ++ u32le ck) ++ rest))
        from by rw [hD, hblock]; simp [List.append_assoc]]
    rw [readU32_at _ _ _ _ (by simp only [List.length_append, length_u16le, length_u32le] <;> omega),
      Nat.mod_eq_of_lt hu]
  have hr8 : readU32 D (pre.length + 8) = some d.length := by
    rw [show D = (pre ++ u16le bt ++ u16le comp ++ u32le u) ++ (u32le d.length ++ (p ++ (d ++ u32le ck) ++ rest))
        from by rw [hD, hblock]; simp [List.append_assoc]]
    rw [readU32_at _ _ _ _ (by simp only [List.length_append, length_u16le, length_u32le] <;> omega),
      Nat.mod_eq_of_lt hd]
  have hsl1 : slice D pre.length (pre.length + 12 + p.length + d.length)
      = (u16le bt ++ u16le comp ++ u32le u ++ u32le d.length) ++ p ++ d := by
    rw [show D = pre ++ (((u16le bt ++ u16le comp ++ u32le u ++ u32le d.length) ++ p ++ d) ++ (u32le ck ++ rest))
        from by rw [hD, hblock]; simp [List.append_assoc]]
    rw [slice_at _ _ _ _ _ rfl
      (by simp only [List.length_append, length_u16le, length_u32le] <;> omega)]
  have hr5 : readU32 D (pre.length + 12 + p.length + d.length) = some ck := by
    rw [show D = (pre ++ ((u16le bt ++ u16le comp ++ u32le u ++ u32le d.length) ++ p ++ d)) ++ (u32le ck ++ rest)
        from by rw [hD, hblock]; simp [List.append_assoc]]
    rw [readU32_at _ _ _ _ (by simp only [List.length_append, length_u16le, length_u32le] <;> omega),
      Nat.mod_eq_of_lt (crc32_lt _ _)]
  have hcrc : crc32 ((u16le bt ++ u16le comp ++ u32le u ++ u32le d.length) ++ p ++ d) 0 = ck := by
    rw [crc32_append, crc32_append, hckdef]
  have hnext : (pre ++ rawBlock12 bt comp u p d).length
      = pre.length + 12 + p.length + d.length + 4 := by
    simp only [List.length_append, length_rawBlock12]
    omega
  have hc0 : ¬ (comp = 0) := by rcases hcomp with rfl | rfl <;> norm_num
  have hc1 : ¬ (comp = 1) := by rcases hcomp with rfl | rfl <;> norm_num
  simp only [decodeLoop]
  rw [if_pos (by omega), if_neg (by omega), hr0, hr2, hr4]
  dsimp only
  rw [if_neg hc0, if_pos (by rcases hcomp with rfl | rfl <;> simp)]
  rw [if_neg (show ¬ (pre.length + 12 > D.length) from by omega), hr8]
  dsimp only
  rw [← hp]
  rw [if_neg (show ¬ (pre.length + 12 + p.length + d.length + 4 > D.length) from by omega)]
  rw [hr5, hsl1, hcrc]
  dsimp only
  rw [if_neg (show ¬ (ck ≠ ck) from by simp)]
  by_cases hbt : bt = 1
  · rw [if_pos hbt, if_pos hbt]
    rw [readU16_some D (pre.length + 12) (by omega)]
    dsimp only
    rw [if_neg hc0, if_neg hc1]
  · rw [if_neg hbt, if_neg hbt, hnext]

/-- The concrete buffer refuting C2: file header, then a checksum-valid
    FileMetadata block whose compression field is 2, then a normal GCode
    block with empty payload. -/
def c2buf : Bytes :=
  fileHeader ++ rawBlock12 0 2 0 (u16le 0) [] ++ block 1 (u16le 0) []

set_option maxRecDepth 1000000 in
/-- **C2 counterexample** — the claim "any block with compression value 2
    or 3 makes `bgcode_to_ascii` raise an unsupported-compression error" is
    false: `c2buf` contains a block whose compression field (bytes 12–13,
    little-endian) equals 2, yet decoding succeeds, silently skipping that
    block after validating its checksum. -/
theorem C2_counterexample :
    slice c2buf 12 14 = [2, 0]
    ∧ bgcode_to_ascii (fun _ => none) c2buf = .ok [] := by
  constructor
  · rfl
  · rfl

/-- **C2 amended** — what the decoder actually does with compression
    values 2 and 3 (the reserved Heatshrink values): a *GCode* block with
    such a compression field raises the unsupported-GCode-compression error
    naming its offset, while a *non-GCode* block with such a compression
    field is checksum-validated and then skipped, and the walk continues
    past it. -/
theorem C2_unsupported_compression (inflate : Bytes → Option Bytes) :
    (∀ (pre rest : Bytes) (comp u : Nat) (p d : Bytes) (parts : List Bytes)
        (fuel : Nat), comp = 2 ∨ comp = 3 → p.length = 2
        → d.length < 4294967296 → u < 4294967296 →
        decodeLoop inflate (pre ++ (rawBlock12 1 comp u p d ++ rest)) (fuel+1)
            pre.length parts
          = .error (.gcodeCompression comp pre.length))
    ∧ (∀ (pre rest : Bytes) (bt comp u : Nat) (p d : Bytes) (parts : List Bytes)
        (fuel : Nat), comp = 2 ∨ comp = 3 → bt ≠ 1 → bt < 65536
        → p.length = (if bt = 5 then 6 else 2)
        → d.length < 4294967296 → u < 4294967296 →
        decodeLoop inflate (pre ++ (rawBlock12 bt comp u p d ++ rest)) (fuel+1)
            pre.length parts
          = decodeLoop inflate (pre ++ (rawBlock12 bt comp u p d ++ rest)) fuel
              ((pre ++ rawBlock12 bt comp u p d).length) parts) := by
  constructor
  · intro pre rest comp u p d parts fuel hcomp hp hd hu
    have h := decodeLoop_rawBlock12_step inflate pre rest 1 comp u p d parts fuel
      (by norm_num) hcomp (by simpa using hp) hd hu
    rw [if_pos rfl] at h
    exact h
  · intro pre rest bt comp u p d parts fuel hcomp hbt hb hp hd hu
    have h := decodeLoop_rawBlock12_step inflate pre rest bt comp u p d parts fuel
      hb hcomp hp hd hu
    rw [if_neg hbt] at h
    exact h

/-- Witness for the amended C2 at a concrete crafted GCode block with
    compression 2. -/
theorem C2_unsupported_compression_witness :
    (((2:Nat) = 2 ∨ (2:Nat) = 3) ∧ (u16le 0).length = 2
      ∧ ([] : Bytes).length < 4294967296 ∧ (0:Nat) < 4294967296)
    ∧ decodeLoop (fun _ => none)
        (fileHeader ++ (rawBlock12 1 2 0 (u16le 0) [] ++ [])) 51
        fileHeader.length []
      = .error (.gcodeCompression 2 fileHeader.length) :=
  ⟨⟨Or.inl rfl, by decide, by decide, by decide⟩,
   (C2_unsupported_compression (fun _ => none)).1 fileHeader [] 2 0 (u16le 0) []
     [] 50 (Or.inl rfl) (by decide) (by decide) (by decide)⟩

/-! ## The minimal PNG builder: `_make_png` -/

/-- The 8-byte PNG signature `b"\x89PNG\r\n\x1a\n"`. -/
def PNG_SIG : Bytes := [137, 80, 78, 71, 13, 10, 26, 10]

/-- The ASCII bytes of `b"IHDR"`. -/
def IHDRtag : Bytes := [73, 72, 68, 82]

/-- The ASCII bytes of `b"IDAT"`. -/
def IDATtag : Bytes := [73, 68, 65, 84]

/-- The ASCII bytes of `b"IEND"`. -/
def IENDtag : Bytes := [73, 69, 78, 68]

/-- `_chunk(tag, data)`: length, tag, data, and a CRC32 over `tag + data`
    (with zlib's `& 0xFFFFFFFF` mask), all fields big-endian. -/
def chunk (tag cdata : Bytes) : Bytes :=
  u32be cdata.length ++ tag ++ cdata ++ u32be (crc32 (tag ++ cdata) 0)

/-- `struct.pack(">IIBBBBB", width, height, 8, 2, 0, 0, 0)`: the IHDR data
    (bit depth 8, truecolor, default compression/filter, no interlace). -/
def ihdrData (w h : Nat) : Bytes := u32be w ++ u32be h ++ [8, 2, 0, 0, 0]

/-- The raw scanline stream: per row a filter byte 0 followed by the RGB
    triples of that row, every channel masked to its low 8 bits. -/
def pngRaw (w h : Nat) (pixels : List (Nat × Nat × Nat)) : Bytes :=
  ((List.range h).map (fun y =>
    0 :: ((List.range w).map (fun x =>
      [(pixels.getD (y * w + x) (0, 0, 0)).1 % 256,
       (pixels.getD (y * w + x) (0, 0, 0)).2.1 % 256,
       (pixels.getD (y * w + x) (0, 0, 0)).2.2 % 256])).flatten)).flatten

/-- `_make_png(width, height, pixels)`; `deflate` models
    `zlib.compress(·, 6)`. -/
def make_png (deflate : Bytes → Bytes) (w h : Nat)
    (pixels : List (Nat × Nat × Nat)) : Bytes :=
  PNG_SIG ++ chunk IHDRtag (ihdrData w h)
    ++ chunk IDATtag (deflate (pngRaw w h pixels))
    ++ chunk IENDtag []

/-! ### Spec-side PNG chunk re-parser -/

/-- Modelled from the spec (§4.2): walk a PNG byte stream chunk by chunk —
    4-byte big-endian length, 4-byte tag, data, and a CRC32 over tag+data
    which is verified — returning the `(tag, data)` list. -/
def pngChunksLoop (data : Bytes) : Nat → Nat → Option (List (Bytes × Bytes))
  | 0, _ => none
  | fuel+1, pos =>
    if pos = data.length then some []
    else
      match readU32be data pos with
      | none => none
      | some len =>
        if pos + 12 + len ≤ data.length then
          let tag := slice data (pos+4) (pos+8)
          let cdata := slice data (pos+8) (pos+8+len)
          match readU32be data (pos+8+len) with
          | none => none
          | some st =>
            if st = crc32 (tag ++ cdata) 0 then
              (pngChunksLoop data fuel (pos+12+len)).map
                (fun cs => (tag, cdata) :: cs)
            else none
        else none

/-- Modelled from the spec: a PNG file is the signature followed by a whole
    number of checksum-valid chunks. -/
def pngChunks (data : Bytes) : Option (List (Bytes × Bytes)) :=
  if data.take 8 = PNG_SIG then pngChunksLoop data (data.length + 1) 8
  else none

theorem readU32be_u32be (n : Nat) (rest : Bytes) :
    readU32be (u32be n ++ rest) 0 = some (n % 4294967296) := by
  simp only [readU32be, u32be, byteAt, List.cons_append, List.length_cons,
    List.getD_cons_zero, List.getD_cons_succ, List.nil_append]
  rw [if_pos (by omega)]
  congr 1
  omega

theorem readU32be_append_right (a b : Bytes) (i : Nat) (h : a.length ≤ i) :
    readU32be (a ++ b) i = readU32be b (i - a.length) := by
  unfold readU32be
  rw [byteAt_append_right a b i h, byteAt_append_right a b (i+1) (by omega),
      byteAt_append_right a b (i+2) (by omega), byteAt_append_right a b (i+3) (by omega)]
  simp only [List.length_append]
  have h1 : i + 1 - a.length = i - a.length + 1 := by omega
  have h2 : i + 2 - a.length = i - a.length + 2 := by omega
  have h3 : i + 3 - a.length = i - a.length + 3 := by omega
  rw [h1, h2, h3]
  congr 1
  simp only [eq_iff_iff]
  omega

theorem readU32be_at (a b : Bytes) (n i : Nat) (h : i = a.length) :
    readU32be (a ++ (u32be n ++ b)) i = some (n % 4294967296) := by
  subst h
  rw [readU32be_append_right _ _ _ le_rfl, Nat.sub_self, readU32be_u32be]

theorem length_chunk (tag cdata : Bytes) :
    (chunk tag cdata).length = tag.length + cdata.length + 8 := by
  simp only [chunk, List.length_append, length_u32be]
  omega

/-- The chunk re-parser steps across one serialized `chunk`. -/
theorem pngChunksLoop_step (pre rest tag cdata : Bytes) (fuel : Nat)
    (htag : tag.length = 4) (hlen : cdata.length < 4294967296) :
    pngChunksLoop (pre ++ (chunk tag cdata ++ rest)) (fuel+1) pre.length
      = (pngChunksLoop (pre ++ (chunk tag cdata ++ rest)) fuel
          ((pre ++ chunk tag cdata).length)).map
          (fun cs => (tag, cdata) :: cs) := by
  set ck := crc32 (tag ++ cdata) 0 with hckdef
  set D := pre ++ (chunk tag cdata ++ rest) with hD
  have hchunk : chunk tag cdata = u32be cdata.length ++ tag ++ (cdata ++ u32be ck) := by
    simp only [chunk, ← hckdef]
    simp [List.append_assoc]
  have hlenD : D.length = pre.length + (12 + cdata.length) + rest.length := by
    simp only [hD, List.length_append, length_chunk]
    omega
  have hr0 : readU32be D pre.length = some cdata.length := by
    rw [show D = pre ++ (u32be cdata.length ++ (tag ++ (cdata ++ u32be ck) ++ rest))
        from by rw [hD, hchunk]; simp [List.append_assoc]]
    rw [readU32be_at _ _ _ _ rfl, Nat.mod_eq_of_lt hlen]
  have hsl1 : slice D (pre.length + 4) (pre.length + 8) = tag := by
    rw [show D = (pre ++ u32be cdata.length) ++ (tag ++ ((cdata ++ u32be ck) ++ rest))
        from by rw [hD, hchunk]; simp [List.append_assoc]]
    rw [slice_at _ _ _ _ _ (by simp [u32be]) (by simp [u32be]; omega)]
  have hsl2 : slice D (pre.length + 8) (pre.length + 8 + cdata.length) = cdata := by
    rw [show D = (pre ++ u32be cdata.length ++ tag) ++ (cdata ++ (u32be ck ++ rest))
        from by rw [hD, hchunk]; simp [List.append_assoc]]
    rw [slice_at _ _ _ _ _
      (by simp only [List.length_append, length_u32be, htag] <;> omega)
      (by simp only [List.length_append, length_u32be, htag] <;> omega)]
  have hr5 : readU32be D (pre.length + 8 + cdata.length) = some ck := by
    rw [show D = (pre ++ u32be cdata.length ++ tag ++ cdata) ++ (u32be ck ++ rest)
        from by rw [hD, hchunk]; simp [List.append_assoc]]
    rw [readU32be_at _ _ _ _
      (by simp only [List.length_append, length_u32be, htag] <;> omega),
      Nat.mod_eq_of_lt (crc32_lt _ _)]
  have hnext : (pre ++ chunk tag cdata).length = pre.length + 12 + cdata.length := by
    simp only [List.length_append, length_chunk, htag]
    omega
  simp only [pngChunksLoop]
  rw [if_neg (by omega), hr0]
  dsimp only
  rw [if_pos (by omega), hsl1, hsl2, hr5]
  dsimp only
  rw [if_pos rfl, hnext]

theorem pngChunksLoop_stop (data : Bytes) (fuel pos : Nat)
    (h : pos = data.length) :
    pngChunksLoop data (fuel+1) pos = some [] := by
  simp only [pngChunksLoop]
  rw [if_pos h]

/-- **C9 (PNG channel masking and chunk structure)** — `_make_png` accepts
    out-of-range channel values by masking each channel to its low 8 bits
    (the output is identical to the output on the masked pixel list), and
    its output re-parses as the PNG signature followed by exactly the
    IHDR, IDAT, IEND chunks, each carrying a CRC32 over tag-plus-data. -/
theorem C9_make_png (deflate : Bytes → Bytes) (w h : Nat)
    (pixels : List (Nat × Nat × Nat)) :
    (make_png deflate w h pixels
      = make_png deflate w h
          (pixels.map (fun px => (px.1 % 256, px.2.1 % 256, px.2.2 % 256))))
    ∧ (w < 4294967296 → h < 4294967296
       → (deflate (pngRaw w h pixels)).length < 4294967296 →
       pngChunks (make_png deflate w h pixels)
         = some [(IHDRtag, ihdrData w h),
                 (IDATtag, deflate (pngRaw w h pixels)),
                 (IENDtag, [])]) := by
  constructor
  · have hraw : pngRaw w h
        (pixels.map (fun px => (px.1 % 256, px.2.1 % 256, px.2.2 % 256)))
        = pngRaw w h pixels := by
      unfold pngRaw
      congr 1
      apply List.map_congr_left
      intro y _
      congr 1
      congr 1
      apply List.map_congr_left
      intro x _
      rcases hpx : pixels[y * w + x]? with _ | p
      · simp [List.getD_eq_getElem?_getD, List.getElem?_map, hpx]
      · simp [List.getD_eq_getElem?_getD, List.getElem?_map, hpx]
    unfold make_png
    rw [hraw]
  · intro hw hh hdlen
    have hihdr : (ihdrData w h).length = 13 := by simp [ihdrData, u32be]
    have hl1 : (chunk IHDRtag (ihdrData w h)).length = 25 := by
      rw [length_chunk, hihdr]; rfl
    have hl2 : (chunk IDATtag (deflate (pngRaw w h pixels))).length
        = 12 + (deflate (pngRaw w h pixels)).length := by
      rw [length_chunk]
      simp only [IDATtag, List.length_cons, List.length_nil]
      omega
    have hl3 : (chunk IENDtag ([] : Bytes)).length = 12 := by
      rw [length_chunk]; rfl
    have hE : make_png deflate w h pixels
        = PNG_SIG ++ (chunk IHDRtag (ihdrData w h)
            ++ (chunk IDATtag (deflate (pngRaw w h pixels))
              ++ (chunk IENDtag [] ++ []))) := by
      unfold make_png
      simp [List.append_assoc]
    rw [hE]
    have hlen : (PNG_SIG ++ (chunk IHDRtag (ihdrData w h)
        ++ (chunk IDATtag (deflate (pngRaw w h pixels))
          ++ (chunk IENDtag [] ++ [])))).length
        = 8 + 25 + (12 + (deflate (pngRaw w h pixels)).length) + 12 := by
      simp only [List.length_append, List.append_nil, hl1, hl2, hl3]
      simp [PNG_SIG]
      omega
    unfold pngChunks
    rw [if_pos (by
      rw [List.take_append_eq_append_take]
      simp [PNG_SIG])]
    rw [hlen]
    rw [show 8 + 25 + (12 + (deflate (pngRaw w h pixels)).length) + 12 + 1
        = ((deflate (pngRaw w h pixels)).length + 54) + 1 + 1 + 1 + 1
        from by omega]
    rw [show (8:Nat) = PNG_SIG.length from rfl]
    rw [pngChunksLoop_step _ _ _ _ _ (by rfl) (by rw [hihdr]; norm_num)]
    rw [show PNG_SIG ++ (chunk IHDRtag (ihdrData w h)
        ++ (chunk IDATtag (deflate (pngRaw w h pixels))
          ++ (chunk IENDtag [] ++ [])))
        = (PNG_SIG ++ chunk IHDRtag (ihdrData w h))
          ++ (chunk IDATtag (deflate (pngRaw w h pixels))
            ++ (chunk IENDtag [] ++ []))
        from by simp [List.append_assoc]]
    rw [pngChunksLoop_step _ _ _ _ _ (by rfl) hdlen]
    rw [show (PNG_SIG ++ chunk IHDRtag (ihdrData w h))
          ++ (chunk IDATtag (deflate (pngRaw w h pixels))
            ++ (chunk IENDtag [] ++ []))
        = (PNG_SIG ++ chunk IHDRtag (ihdrData w h)
            ++ chunk IDATtag (deflate (pngRaw w h pixels)))
          ++ (chunk IENDtag [] ++ [])
        from by simp [List.append_assoc]]
    rw [pngChunksLoop_step _ _ _ _ _ (by rfl) (by norm_num)]
    rw [pngChunksLoop_stop _ _ _ (by
      simp only [List.length_append, List.append_nil] <;> omega)]
    rfl

/-- Witness for C9 at a 1×1 image with an out-of-range channel. -/
theorem C9_make_png_witness :
    ((1:Nat) < 4294967296 ∧ (1:Nat) < 4294967296
      ∧ ((fun x => x) (pngRaw 1 1 [(300, 2, 3)])).length < 4294967296)
    ∧ make_png (fun x => x) 1 1 [(300, 2, 3)]
        = make_png (fun x => x) 1 1 [(300 % 256, 2 % 256, 3 % 256)]
    ∧ pngChunks (make_png (fun x => x) 1 1 [(300, 2, 3)])
        = some [(IHDRtag, ihdrData 1 1),
                (IDATtag, (fun x => x) (pngRaw 1 1 [(300, 2, 3)])),
                (IENDtag, [])] :=
  ⟨⟨by decide, by decide, by decide⟩,
   by
     have h := (C9_make_png (fun x => x) 1 1 [(300, 2, 3)]).1
     simpa using h,
   (C9_make_png (fun x => x) 1 1 [(300, 2, 3)]).2
     (by decide) (by decide) (by decide)⟩

/-! ## The decoder never reads the version / checksum-algorithm fields -/

theorem drop_eq_of_drop10_eq (d1 d2 : Bytes) (htail : d1.drop 10 = d2.drop 10)
    (a : Nat) (ha : 10 ≤ a) : d1.drop a = d2.drop a := by
  have h1 : d1.drop a = (d1.drop 10).drop (a - 10) := by
    rw [List.drop_drop]
    congr 1
    omega
  have h2 : d2.drop a = (d2.drop 10).drop (a - 10) := by
    rw [List.drop_drop]
    congr 1
    omega
  rw [h1, h2, htail]

theorem byteAt_eq_of_drop10_eq (d1 d2 : Bytes) (htail : d1.drop 10 = d2.drop 10)
    (j : Nat) (hj : 10 ≤ j) : byteAt d1 j = byteAt d2 j := by
  have h1 : byteAt d1 j = (d1.drop j).getD 0 0 := by
    simp [byteAt, List.getD_eq_getElem?_getD, List.getElem?_drop]
  have h2 : byteAt d2 j = (d2.drop j).getD 0 0 := by
    simp [byteAt, List.getD_eq_getElem?_getD, List.getElem?_drop]
  rw [h1, h2, drop_eq_of_drop10_eq d1 d2 htail j hj]

/-- The decoder loop only looks at the buffer length and the bytes from
    offset 10 on: on two buffers of equal length agreeing from offset 10,
    it behaves identically (same result or same error) from any cursor
    position ≥ 10. -/
theorem decodeLoop_congr_from10 (inflate : Bytes → Option Bytes) (d1 d2 : Bytes)
    (hLen : d1.length = d2.length) (htail : d1.drop 10 = d2.drop 10) :
    ∀ (fuel pos : Nat) (parts : List Bytes), 10 ≤ pos →
      decodeLoop inflate d1 fuel pos parts = decodeLoop inflate d2 fuel pos parts := by
  have hbyte := byteAt_eq_of_drop10_eq d1 d2 htail
  have hr16 : ∀ j, 10 ≤ j → readU16 d1 j = readU16 d2 j := by
    intro j hj
    unfold readU16
    rw [hLen, hbyte j hj, hbyte (j+1) (by omega)]
  have hr32 : ∀ j, 10 ≤ j → readU32 d1 j = readU32 d2 j := by
    intro j hj
    unfold readU32
    rw [hLen, hbyte j hj, hbyte (j+1) (by omega), hbyte (j+2) (by omega),
      hbyte (j+3) (by omega)]
  have hsl : ∀ a b, 10 ≤ a → slice d1 a b = slice d2 a b := by
    intro a b ha
    unfold slice
    rw [drop_eq_of_drop10_eq d1 d2 htail a ha]
  intro fuel
  induction fuel with
  | zero => intro pos parts _; rfl
  | succ fuel ih =>
    intro pos parts hpos
    simp only [decodeLoop]
    rw [hLen]
    by_cases hp1 : pos < d2.length
    case neg => simp only [if_neg hp1]
    simp only [if_pos hp1]
    by_cases hp8 : pos + 8 > d2.length
    case pos => simp only [if_pos hp8]
    simp only [if_neg hp8]
    rw [hr16 pos hpos, hr16 (pos+2) (by omega), hr32 (pos+4) (by omega),
      hr32 (pos+8) (by omega)]
    rcases e1 : readU16 d2 pos with _ | btype
    · rfl
    rcases e2 : readU16 d2 (pos+2) with _ | comp
    · rfl
    rcases e3 : readU32 d2 (pos+4) with _ | us
    · rfl
    dsimp only
    by_cases hc0 : comp = 0
    · rw [if_pos hc0]
      dsimp only
      rw [hr32 (pos + 8 + (if btype = 5 then 6 else 2) + us) (by omega),
        hsl pos (pos + 8 + (if btype = 5 then 6 else 2) + us) hpos,
        hsl (pos + 8 + (if btype = 5 then 6 else 2))
          (pos + 8 + (if btype = 5 then 6 else 2) + us) (by omega),
        hr16 (pos + 8) (by omega)]
      have hrec := fun parts =>
        ih (pos + 8 + (if btype = 5 then 6 else 2) + us + 4) parts (by omega)
      simp only [hrec]
    · rw [if_neg hc0]
      by_cases hcs : comp = 1 ∨ comp = 2 ∨ comp = 3
      case neg => simp only [if_neg hcs]
      simp only [if_pos hcs]
      by_cases ht12 : pos + 12 > d2.length
      case pos => simp only [if_pos ht12]
      simp only [if_neg ht12]
      rcases e4 : readU32 d2 (pos+8) with _ | cs
      · rfl
      dsimp only
      rw [hr32 (pos + 12 + (if btype = 5 then 6 else 2) + cs) (by omega),
        hsl pos (pos + 12 + (if btype = 5 then 6 else 2) + cs) hpos,
        hsl (pos + 12 + (if btype = 5 then 6 else 2))
          (pos + 12 + (if btype = 5 then 6 else 2) + cs) (by omega),
        hr16 (pos + 12) (by omega)]
      have hrec := fun parts =>
        ih (pos + 12 + (if btype = 5 then 6 else 2) + cs + 4) parts (by omega)
      simp only [hrec]

/-- **C10 (version and checksum-algorithm fields are never read)** — two
    buffers of length ≥ 10 that agree on the 4 magic bytes and on every
    byte from offset 10 on (but may differ arbitrarily on bytes 4..10, the
    version and checksum-algorithm fields) decode to the same result or
    raise the same error. -/
theorem C10_header_fields_ignored (inflate : Bytes → Option Bytes)
    (d1 d2 : Bytes) (h1 : 10 ≤ d1.length) (h2 : 10 ≤ d2.length)
    (hmagic : d1.take 4 = d2.take 4) (htail : d1.drop 10 = d2.drop 10) :
    bgcode_to_ascii inflate d1 = bgcode_to_ascii inflate d2 := by
  have hLen : d1.length = d2.length := by
    have := congrArg List.length htail
    simp only [List.length_drop] at this
    omega
  unfold bgcode_to_ascii
  rw [if_neg (show ¬ (d1.length < 10) from by omega),
    if_neg (show ¬ (d2.length < 10) from by omega), hmagic, hLen]
  by_cases hm : d2.take 4 ≠ MAGIC
  · simp only [if_pos hm]
  · simp only [if_neg hm]
    rw [decodeLoop_congr_from10 inflate d1 d2 hLen htail (d2.length + 1) 10 []
      (by omega)]

set_option maxRecDepth 1000000 in
/-- Witness for C10: two headers differing only in the version field. -/
theorem C10_header_fields_ignored_witness :
    (10 ≤ (write_bgcode [71] []).length
      ∧ 10 ≤ ((write_bgcode [71] []).set 4 99).length
      ∧ (write_bgcode [71] []).take 4 = ((write_bgcode [71] []).set 4 99).take 4
      ∧ (write_bgcode [71] []).drop 10 = ((write_bgcode [71] []).set 4 99).drop 10)
    ∧ bgcode_to_ascii (fun _ => none) (write_bgcode [71] [])
      = bgcode_to_ascii (fun _ => none) ((write_bgcode [71] []).set 4 99) :=
  ⟨⟨by decide, by decide, by decide, by decide⟩,
   C10_header_fields_ignored (fun _ => none) (write_bgcode [71] [])
     ((write_bgcode [71] []).set 4 99)
     (by decide) (by decide) (by decide) (by decide)⟩

/-! ## A successful decode walk agrees with the framing walker -/

/-- When the decoder loop succeeds, the framing walker succeeds on the same
    region, and the number of parts the decoder appended equals the number
    of GCode-type (type 1) blocks the walker saw. -/
theorem readU32_some (data : Bytes) (i : Nat) (h : i + 4 ≤ data.length) :
    readU32 data i = some (byteAt data i + 256 * byteAt data (i+1)
      + 65536 * byteAt data (i+2) + 16777216 * byteAt data (i+3)) :=
  if_pos h

theorem decodeLoop_ok_spec (inflate : Bytes → Option Bytes) (data : Bytes) :
    ∀ (fuel pos : Nat) (parts res : List Bytes),
      decodeLoop inflate data fuel pos parts = .ok res →
      ∃ ts, specBlockTypesLoop data fuel pos = some ts
        ∧ res.length = parts.length + ts.count 1 := by
  intro fuel
  induction fuel with
  | zero =>
    intro pos parts res h
    exact absurd h (by simp [decodeLoop])
  | succ fuel ih =>
    intro pos parts res h
    simp only [decodeLoop] at h
    simp only [specBlockTypesLoop]
    by_cases hp1 : pos < data.length
    case neg =>
      rw [if_neg hp1] at h ⊢
      refine ⟨[], rfl, ?_⟩
      simp only [Except.ok.injEq] at h
      simp [h]
    rw [if_pos hp1] at h ⊢
    by_cases hp8 : pos + 8 > data.length
    case pos =>
      rw [if_pos hp8] at h
      exact absurd h (by simp)
    rw [if_neg hp8] at h ⊢
    rw [readU16_some data pos (by omega), readU16_some data (pos+2) (by omega),
      readU32_some data (pos+4) (by omega)] at h ⊢
    set btype := byteAt data pos + 256 * byteAt data (pos+1) with hbtype
    set comp := byteAt data (pos+2) + 256 * byteAt data (pos+2+1) with hcomp
    set us := byteAt data (pos+4) + 256 * byteAt data (pos+4+1)
      + 65536 * byteAt data (pos+4+2) + 16777216 * byteAt data (pos+4+3) with hus
    dsimp only at h ⊢
    by_cases hc0 : comp = 0
    · -- 8-byte header, compSize = us
      rw [if_pos hc0] at h ⊢
      dsimp only at h ⊢
      by_cases hpe : pos + 8 + (if btype = 5 then 6 else 2) + us + 4 > data.length
      · rw [if_pos hpe] at h
        exact absurd h (by simp)
      rw [if_neg hpe] at h ⊢
      rw [readU32_some data (pos + 8 + (if btype = 5 then 6 else 2) + us) (by omega)] at h
      dsimp only at h
      by_cases hcrc : crc32 (slice data pos (pos + 8 + (if btype = 5 then 6 else 2) + us)) 0
          ≠ byteAt data (pos + 8 + (if btype = 5 then 6 else 2) + us)
            + 256 * byteAt data (pos + 8 + (if btype = 5 then 6 else 2) + us + 1)
            + 65536 * byteAt data (pos + 8 + (if btype = 5 then 6 else 2) + us + 2)
            + 16777216 * byteAt data (pos + 8 + (if btype = 5 then 6 else 2) + us + 3)
      · rw [if_pos hcrc] at h
        exact absurd h (by simp)
      rw [if_neg hcrc] at h
      by_cases hb1 : btype = 1
      · rw [if_pos hb1] at h
        rw [readU16_some data (pos + 8) (by omega)] at h
        dsimp only at h
        rw [if_pos hc0] at h
        dsimp only at h
        by_cases he : byteAt data (pos + 8) + 256 * byteAt data (pos + 8 + 1) ≠ 0
        · rw [if_pos he] at h
          exact absurd h (by simp)
        rw [if_neg he] at h
        by_cases hu : utf8Valid (slice data (pos + 8 + (if btype = 5 then 6 else 2))
            (pos + 8 + (if btype = 5 then 6 else 2) + us)) = true
        · rw [if_pos hu] at h
          obtain ⟨ts, hts, hcnt⟩ := ih _ _ _ h
          refine ⟨btype :: ts, ?_, ?_⟩
          · rw [hts]
            rfl
          · rw [hcnt, hb1]
            simp [List.count_cons]
            omega
        · rw [if_neg hu] at h
          exact absurd h (by simp)
      · rw [if_neg hb1] at h
        obtain ⟨ts, hts, hcnt⟩ := ih _ _ _ h
        refine ⟨btype :: ts, ?_, ?_⟩
        · rw [hts]
          rfl
        · rw [hcnt]
          have hbf : (btype == 1) = false := by simpa using hb1
          simp [List.count_cons, hbf]
    · -- 12-byte header
      rw [if_neg hc0] at h ⊢
      by_cases hcs : comp = 1 ∨ comp = 2 ∨ comp = 3
      case neg =>
        rw [if_neg hcs] at h
        exact absurd h (by simp)
      rw [if_pos hcs] at h ⊢
      by_cases ht12 : pos + 12 > data.length
      · rw [if_pos ht12] at h
        exact absurd h (by simp)
      rw [if_neg ht12] at h ⊢
      rw [readU32_some data (pos+8) (by omega)] at h ⊢
      set cs := byteAt data (pos+8) + 256 * byteAt data (pos+8+1)
        + 65536 * byteAt data (pos+8+2) + 16777216 * byteAt data (pos+8+3) with hcs8
      dsimp only at h ⊢
      by_cases hpe : pos + 12 + (if btype = 5 then 6 else 2) + cs + 4 > data.length
      · rw [if_pos hpe] at h
        exact absurd h (by simp)
      rw [if_neg hpe] at h ⊢
      rw [readU32_some data (pos + 12 + (if btype = 5 then 6 else 2) + cs) (by omega)] at h
      dsimp only at h
      by_cases hcrc : crc32 (slice data pos (pos + 12 + (if btype = 5 then 6 else 2) + cs)) 0
          ≠ byteAt data (pos + 12 + (if btype = 5 then 6 else 2) + cs)
            + 256 * byteAt data (pos + 12 + (if btype = 5 then 6 else 2) + cs + 1)
            + 65536 * byteAt data (pos + 12 + (if btype = 5 then 6 else 2) + cs + 2)
            + 16777216 * byteAt data (pos + 12 + (if btype = 5 then 6 else 2) + cs + 3)
      · rw [if_pos hcrc] at h
        exact absurd h (by simp)
      rw [if_neg hcrc] at h
      by_cases hb1 : btype = 1
      · rw [if_pos hb1] at h
        rw [readU16_some data (pos + 12) (by omega)] at h
        dsimp only at h
        rw [if_neg hc0] at h
        by_cases hc1 : comp = 1
        · rw [if_pos hc1] at h
          generalize e7 : inflate (slice data (pos + 12 + (if btype = 5 then 6 else 2))
              (pos + 12 + (if btype = 5 then 6 else 2) + cs)) = r7 at h
          cases r7 with
          | none => simp at h
          | some raw =>
            dsimp only at h
            by_cases he : byteAt data (pos + 12) + 256 * byteAt data (pos + 12 + 1) ≠ 0
            · rw [if_pos he] at h
              exact absurd h (by simp)
            rw [if_neg he] at h
            by_cases hu : utf8Valid raw = true
            · rw [if_pos hu] at h
              obtain ⟨ts, hts, hcnt⟩ := ih _ _ _ h
              refine ⟨btype :: ts, ?_, ?_⟩
              · rw [hts]
                rfl
              · rw [hcnt, hb1]
                simp [List.count_cons]
                omega
            · rw [if_neg hu] at h
              exact absurd h (by simp)
        · rw [if_neg hc1] at h
          exact absurd h (by simp)
      · rw [if_neg hb1] at h
        obtain ⟨ts, hts, hcnt⟩ := ih _ _ _ h
        refine ⟨btype :: ts, ?_, ?_⟩
        · rw [hts]
          rfl
        · rw [hcnt]
          have hbf : (btype == 1) = false := by simpa using hb1
          simp [List.count_cons, hbf]

/-! ## The decoder loop never produces the artificial outcomes

With enough fuel (`data.length - pos < fuel`, which the top-level call
always provides), the loop can only fail with one of the errors that
correspond to a `raise` in the source: never `oob` (every buffer read is
bounds-checked first), never `fuelOut` (the cursor advances at least 14
bytes per block), and never `noGcodeBlocks` (which only the top level
raises). -/
theorem decodeLoop_error_shape (inflate : Bytes → Option Bytes) (data : Bytes) :
    ∀ (fuel pos : Nat) (parts : List Bytes) (e : DecodeErr),
      data.length - pos < fuel →
      decodeLoop inflate data fuel pos parts = .error e →
      e ≠ .noGcodeBlocks ∧ (∀ i, e ≠ .oob i) ∧ e ≠ .fuelOut := by
  intro fuel
  induction fuel with
  | zero =>
    intro pos parts e hfuel h
    omega
  | succ fuel ih =>
    intro pos parts e hfuel h
    simp only [decodeLoop] at h
    by_cases hp1 : pos < data.length
    case neg =>
      rw [if_neg hp1] at h
      exact absurd h (by simp)
    rw [if_pos hp1] at h
    by_cases hp8 : pos + 8 > data.length
    case pos =>
      rw [if_pos hp8] at h
      simp only [Except.error.injEq] at h
      subst h
      exact ⟨by simp, fun i => by simp, by simp⟩
    rw [if_neg hp8] at h
    rw [readU16_some data pos (by omega), readU16_some data (pos+2) (by omega),
      readU32_some data (pos+4) (by omega)] at h
    set btype := byteAt data pos + 256 * byteAt data (pos+1) with hbtype
    set comp := byteAt data (pos+2) + 256 * byteAt data (pos+2+1) with hcomp
    set us := byteAt data (pos+4) + 256 * byteAt data (pos+4+1)
      + 65536 * byteAt data (pos+4+2) + 16777216 * byteAt data (pos+4+3) with hus
    dsimp only at h
    by_cases hc0 : comp = 0
    · rw [if_pos hc0] at h
      dsimp only at h
      by_cases hpe : pos + 8 + (if btype = 5 then 6 else 2) + us + 4 > data.length
      · rw [if_pos hpe] at h
        simp only [Except.error.injEq] at h
        subst h
        exact ⟨by simp, fun i => by simp, by simp⟩
      rw [if_neg hpe] at h
      rw [readU32_some data (pos + 8 + (if btype = 5 then 6 else 2) + us) (by omega)] at h
      dsimp only at h
      by_cases hcrc : crc32 (slice data pos (pos + 8 + (if btype = 5 then 6 else 2) + us)) 0
          ≠ byteAt data (pos + 8 + (if btype = 5 then 6 else 2) + us)
            + 256 * byteAt data (pos + 8 + (if btype = 5 then 6 else 2) + us + 1)
            + 65536 * byteAt data (pos + 8 + (if btype = 5 then 6 else 2) + us + 2)
            + 16777216 * byteAt data (pos + 8 + (if btype = 5 then 6 else 2) + us + 3)
      · rw [if_pos hcrc] at h
        simp only [Except.error.injEq] at h
        subst h
        exact ⟨by simp, fun i => by simp, by simp⟩
      rw [if_neg hcrc] at h
      by_cases hb1 : btype = 1
      · rw [if_pos hb1] at h
        rw [readU16_some data (pos + 8) (by omega)] at h
        dsimp only at h
        rw [if_pos hc0] at h
        dsimp only at h
        by_cases he : byteAt data (pos + 8) + 256 * byteAt data (pos + 8 + 1) ≠ 0
        · rw [if_pos he] at h
          simp only [Except.error.injEq] at h
          subst h
          exact ⟨by simp, fun i => by simp, by simp⟩
        rw [if_neg he] at h
        by_cases hu : utf8Valid (slice data (pos + 8 + (if btype = 5 then 6 else 2))
            (pos + 8 + (if btype = 5 then 6 else 2) + us)) = true
        · rw [if_pos hu] at h
          exact ih _ _ _ (by omega) h
        · rw [if_neg hu] at h
          simp only [Except.error.injEq] at h
          subst h
          exact ⟨by simp, fun i => by simp, by simp⟩
      · rw [if_neg hb1] at h
        exact ih _ _ _ (by omega) h
    · rw [if_neg hc0] at h
      by_cases hcs : comp = 1 ∨ comp = 2 ∨ comp = 3
      case neg =>
        rw [if_neg hcs] at h
        simp only [Except.error.injEq] at h
        subst h
        exact ⟨by simp, fun i => by simp, by simp⟩
      rw [if_pos hcs] at h
      by_cases ht12 : pos + 12 > data.length
      · rw [if_pos ht12] at h
        simp only [Except.error.injEq] at h
        subst h
        exact ⟨by simp, fun i => by simp, by simp⟩
      rw [if_neg ht12] at h
      rw [readU32_some data (pos+8) (by omega)] at h
      set cs := byteAt data (pos+8) + 256 * byteAt data (pos+8+1)
        + 65536 * byteAt data (pos+8+2) + 16777216 * byteAt data (pos+8+3) with hcs8
      dsimp only at h
      by_cases hpe : pos + 12 + (if btype = 5 then 6 else 2) + cs + 4 > data.length
      · rw [if_pos hpe] at h
        simp only [Except.error.injEq] at h
        subst h
        exact ⟨by simp, fun i => by simp, by simp⟩
      rw [if_neg hpe] at h
      rw [readU32_some data (pos + 12 + (if btype = 5 then 6 else 2) + cs) (by omega)] at h
      dsimp only at h
      by_cases hcrc : crc32 (slice data pos (pos + 12 + (if btype = 5 then 6 else 2) + cs)) 0
          ≠ byteAt data (pos + 12 + (if btype = 5 then 6 else 2) + cs)
            + 256 * byteAt data (pos + 12 + (if btype = 5 then 6 else 2) + cs + 1)
            + 65536 * byteAt data (pos + 12 + (if btype = 5 then 6 else 2) + cs + 2)
            + 16777216 * byteAt data (pos + 12 + (if btype = 5 then 6 else 2) + cs + 3)
      · rw [if_pos hcrc] at h
        simp only [Except.error.injEq] at h
        subst h
        exact ⟨by simp, fun i => by simp, by simp⟩
      rw [if_neg hcrc] at h
      by_cases hb1 : btype = 1
      · rw [if_pos hb1] at h
        rw [readU16_some data (pos + 12) (by omega)] at h
        dsimp only at h
        rw [if_neg hc0] at h
        by_cases hc1 : comp = 1
        · rw [if_pos hc1] at h
          generalize e7 : inflate (slice data (pos + 12 + (if btype = 5 then 6 else 2))
              (pos + 12 + (if btype = 5 then 6 else 2) + cs)) = r7 at h
          cases r7 with
          | none =>
            dsimp only at h
            simp only [Except.error.injEq] at h
            subst h
            exact ⟨by simp, fun i => by simp, by simp⟩
          | some raw =>
            dsimp only at h
            by_cases he : byteAt data (pos + 12) + 256 * byteAt data (pos + 12 + 1) ≠ 0
            · rw [if_pos he] at h
              simp only [Except.error.injEq] at h
              subst h
              exact ⟨by simp, fun i => by simp, by simp⟩
            rw [if_neg he] at h
            by_cases hu : utf8Valid raw = true
            · rw [if_pos hu] at h
              exact ih _ _ _ (by omega) h
            · rw [if_neg hu] at h
              simp only [Except.error.injEq] at h
              subst h
              exact ⟨by simp, fun i => by simp, by simp⟩
        · rw [if_neg hc1] at h
          simp only [Except.error.injEq] at h
          subst h
          exact ⟨by simp, fun i => by simp, by simp⟩
      · rw [if_neg hb1] at h
        exact ih _ _ _ (by omega) h

set_option maxRecDepth 1000000 in
/-- **C8 (empty G-code boundary)** — encoding the empty text with no
    thumbnails still emits a GCode block with a zero-length payload, so
    decoding returns exactly the empty text and not the
    no-GCode-blocks-found error; and that error is raised only for
    containers whose framing contains zero GCode-type blocks. -/
theorem C8_empty_gcode :
    (∀ inflate : Bytes → Option Bytes,
        bgcode_to_ascii inflate (write_bgcode [] []) = .ok [])
    ∧ (∀ (inflate : Bytes → Option Bytes) (data : Bytes) (ts : List Nat),
        bgcode_to_ascii inflate data = .error .noGcodeBlocks →
        specBlockTypes data = some ts → (1:Nat) ∉ ts) := by
  constructor
  · intro inflate
    rfl
  · intro inflate data ts hdec hspec
    unfold bgcode_to_ascii at hdec
    by_cases h10 : data.length < 10
    · rw [if_pos h10] at hdec
      exact absurd hdec (by simp)
    rw [if_neg h10] at hdec
    by_cases hm : data.take 4 ≠ MAGIC
    · rw [if_pos hm] at hdec
      exact absurd hdec (by simp)
    rw [if_neg hm] at hdec
    generalize hl : decodeLoop inflate data (data.length + 1) 10 [] = r at hdec
    cases r with
    | error e =>
      dsimp only at hdec
      simp only [Except.error.injEq] at hdec
      subst hdec
      have hsh := decodeLoop_error_shape inflate data (data.length+1) 10 [] _
        (by omega) hl
      exact absurd rfl hsh.1
    | ok parts =>
      dsimp only at hdec
      by_cases hemp : parts.isEmpty
      case neg =>
        rw [if_neg hemp] at hdec
        exact absurd hdec (by simp)
      obtain ⟨ts', hts', hcnt⟩ := decodeLoop_ok_spec inflate data _ _ _ _ hl
      unfold specBlockTypes at hspec
      rw [if_pos ⟨by omega, not_not.mp hm⟩, hts'] at hspec
      have hts : ts = ts' := by
        simpa using hspec.symm
      subst hts
      have hpl : parts.length = 0 := by
        rw [List.isEmpty_iff] at hemp
        simp [hemp]
      rw [hpl] at hcnt
      simp only [List.length_nil, Nat.zero_add] at hcnt
      exact List.count_eq_zero.mp hcnt.symm

set_option maxRecDepth 1000000 in
/-- Witness for C8's second conjunct: a container holding only a
    FileMetadata block decodes to the no-GCode-blocks error, and its block
    type sequence `[0]` indeed contains no GCode type. -/
theorem C8_empty_gcode_witness :
    (bgcode_to_ascii (fun _ => none) (fileHeader ++ block 0 (u16le 0) [])
        = .error .noGcodeBlocks
      ∧ specBlockTypes (fileHeader ++ block 0 (u16le 0) []) = some [0])
    ∧ (1:Nat) ∉ ([0] : List Nat) :=
  ⟨⟨by rfl, by rfl⟩,
   C8_empty_gcode.2 (fun _ => none) (fileHeader ++ block 0 (u16le 0) []) [0]
     (by rfl) (by rfl)⟩

/-! ## Truncation safety (C4) -/

/-- Walking a prefix of well-formed serialized blocks followed by an
    arbitrary tail: the loop accepts the blocks and arrives at the start of
    the tail. -/
theorem decodeLoop_skipBlocks (inflate : Bytes → Option Bytes)
    (bs : List (Nat × Bytes × Bytes)) (pre tail : Bytes) (parts : List Bytes)
    (k : Nat) (hwf : ∀ x ∈ bs, WFBlock x) :
    decodeLoop inflate (pre ++ (serBlocks bs ++ tail)) (bs.length + (k+1))
        pre.length parts
      = decodeLoop inflate (pre ++ (serBlocks bs ++ tail)) (k+1)
          ((pre ++ serBlocks bs).length) (parts ++ gcodeParts bs) := by
  induction bs generalizing pre parts with
  | nil =>
    simp [serBlocks_nil, gcodeParts]
  | cons x bs ih =>
    obtain ⟨bt, p, d⟩ := x
    obtain ⟨hb, hp, hd, hgc⟩ := hwf _ (List.mem_cons_self _ _)
    rw [serBlocks_cons]
    simp only [List.length_cons]
    rw [show pre ++ (block bt p d ++ serBlocks bs ++ tail)
        = pre ++ (block bt p d ++ (serBlocks bs ++ tail)) from by
      simp [List.append_assoc]]
    rw [show bs.length + 1 + (k + 1) = (bs.length + (k+1)) + 1 from by omega]
    rw [decodeLoop_step inflate pre (serBlocks bs ++ tail) bt p d parts
        (bs.length + (k+1)) hb hp hd (fun h => (hgc h).1) (fun h => (hgc h).2)]
    rw [show pre ++ (block bt p d ++ (serBlocks bs ++ tail))
        = (pre ++ block bt p d) ++ (serBlocks bs ++ tail) from by
      simp [List.append_assoc]]
    rw [ih (pre ++ block bt p d) _ (fun y hy => hwf y (List.mem_cons_of_mem _ hy))]
    have hgp : gcodeParts ((bt, p, d) :: bs)
        = (if bt = 1 then [d] else []) ++ gcodeParts bs := by
      simp only [gcodeParts, List.filter_cons]
      by_cases hbt : bt = 1
      · subst hbt
        simp
      · have hbf : ((bt, p, d).1 == 1) = false := by simpa using hbt
        simp [hbf, hbt]
    rw [hgp]
    by_cases hbt : bt = 1
    · rw [if_pos hbt, if_pos hbt]
      simp [List.append_assoc]
    · rw [if_neg hbt, if_neg hbt]
      simp [List.append_assoc]

/-- **C4 (truncation safety)** — three facts:
    (1) on every input the decoder returns a result or a `ValueError`-class
    error, never an out-of-bounds read (`oob`) and never fuel exhaustion
    (`fuelOut`) — every buffer index it reads is bounds-checked first;
    (2) a buffer shorter than the 10-byte file header raises the
    too-short error;
    (3) slicing a well-formed container short anywhere strictly inside a
    block raises the truncated-header or truncated-payload error naming
    that block's offset. -/
theorem C4_truncation_safety :
    (∀ (inflate : Bytes → Option Bytes) (data : Bytes),
        (∀ i, bgcode_to_ascii inflate data ≠ .error (.oob i))
        ∧ bgcode_to_ascii inflate data ≠ .error .fuelOut)
    ∧ (∀ (inflate : Bytes → Option Bytes) (data : Bytes), data.length < 10 →
        bgcode_to_ascii inflate data = .error (.tooShort data.length))
    ∧ (∀ (inflate : Bytes → Option Bytes) (bs1 bs2 : List (Nat × Bytes × Bytes))
        (bt : Nat) (p d : Bytes) (off : Nat),
        (∀ x ∈ bs1 ++ (bt, p, d) :: bs2, WFBlock x) →
        0 < off → off < (block bt p d).length →
        bgcode_to_ascii inflate ((fileHeader ++ serBlocks (bs1 ++ (bt, p, d) :: bs2)).take
            ((fileHeader ++ serBlocks bs1).length + off))
          = .error (.truncatedHeader (fileHeader ++ serBlocks bs1).length)
        ∨ ∃ k, bgcode_to_ascii inflate ((fileHeader ++ serBlocks (bs1 ++ (bt, p, d) :: bs2)).take
            ((fileHeader ++ serBlocks bs1).length + off))
          = .error (.truncatedPayload (fileHeader ++ serBlocks bs1).length k)) := by
  refine ⟨?_, ?_, ?_⟩
  · intro inflate data
    unfold bgcode_to_ascii
    by_cases h10 : data.length < 10
    · rw [if_pos h10]
      exact ⟨fun i => by simp, by simp⟩
    rw [if_neg h10]
    by_cases hm : data.take 4 ≠ MAGIC
    · rw [if_pos hm]
      exact ⟨fun i => by simp, by simp⟩
    rw [if_neg hm]
    generalize hl : decodeLoop inflate data (data.length + 1) 10 [] = r
    cases r with
    | error e =>
      have hsh := decodeLoop_error_shape inflate data (data.length+1) 10 [] _
        (by omega) hl
      dsimp only
      exact ⟨fun i => by simp [(hsh.2.1 i)], by simp [hsh.2.2]⟩
    | ok parts =>
      dsimp only
      by_cases hemp : parts.isEmpty
      · rw [if_pos hemp]
        exact ⟨fun i => by simp, by simp⟩
      · rw [if_neg hemp]
        exact ⟨fun i => by simp, by simp⟩
  · intro inflate data h10
    unfold bgcode_to_ascii
    rw [if_pos h10]
  · intro inflate bs1 bs2 bt p d off hwf hoff0 hoffB
    have hwfx := hwf (bt, p, d) (by simp)
    have hb : bt < 65536 := hwfx.1
    have hp : p.length = if bt = 5 then 6 else 2 := hwfx.2.1
    have hd : d.length < 4294967296 := hwfx.2.2.1
    set ck := crc32 d (crc32 p (crc32 (u16le bt ++ u16le 0 ++ u32le d.length) 0)) with hckdef
    have hblock : block bt p d
        = (u16le bt ++ u16le 0 ++ u32le d.length) ++ ((p ++ (d ++ u32le ck))) := by
      simp only [block, ← hckdef]
      simp [List.append_assoc]
    have hlenB : (block bt p d).length = 12 + p.length + d.length := length_block bt p d
    -- the truncated buffer
    have hsplit : (fileHeader ++ serBlocks (bs1 ++ (bt, p, d) :: bs2)).take
        ((fileHeader ++ serBlocks bs1).length + off)
        = (fileHeader ++ serBlocks bs1) ++ ((block bt p d).take off) := by
      rw [show fileHeader ++ serBlocks (bs1 ++ (bt, p, d) :: bs2)
          = (fileHeader ++ serBlocks bs1) ++ (block bt p d ++ serBlocks bs2) from by
        simp only [serBlocks, List.map_append, List.flatten_append, List.map_cons,
          List.flatten_cons]
        simp [List.append_assoc]]
      rw [List.take_append]
      congr 1
      rw [List.take_append_eq_append_take]
      rw [show off - (block bt p d).length = 0 from by omega]
      simp
    rw [hsplit]
    set pre := fileHeader ++ serBlocks bs1 with hpre
    have hpre10 : 10 ≤ pre.length := by
      simp only [hpre, List.length_append]
      have : fileHeader.length = 10 := rfl
      omega
    have hlenT : ((block bt p d).take off).length = off := by
      rw [List.length_take]
      omega
    have hlenD : (pre ++ (block bt p d).take off).length = pre.length + off := by
      simp [hlenT]
    -- top level
    unfold bgcode_to_ascii
    rw [if_neg (by omega)]
    rw [if_neg (by
      simp only [ne_eq, Decidable.not_not]
      rw [show pre ++ (block bt p d).take off
          = MAGIC ++ (u32le 1 ++ u16le 1 ++ (serBlocks bs1 ++ (block bt p d).take off))
          from by rw [hpre]; simp [fileHeader, List.append_assoc]]
      rw [List.take_append_eq_append_take]
      simp [MAGIC])]
    -- fuel bookkeeping: walk the intact blocks of bs1
    have hge := length_le_length_serBlocks bs1
    have hfuel : (pre ++ (block bt p d).take off).length + 1
        = bs1.length + ((pre.length + off - bs1.length) + 1) := by
      rw [hlenD]
      have h10p : pre.length = 10 + (serBlocks bs1).length := by
        rw [hpre]
        simp only [List.length_append]
        rfl
      omega
    rw [hfuel]
    rw [show (10:Nat) = fileHeader.length from rfl]
    rw [show pre ++ (block bt p d).take off
        = fileHeader ++ (serBlocks bs1 ++ (block bt p d).take off) from by
      rw [hpre]; simp [List.append_assoc]]
    rw [decodeLoop_skipBlocks inflate bs1 fileHeader _ [] _
      (fun y hy => hwf y (by simp [hy]))]
    rw [← hpre]
    -- now at the truncated block
    by_cases h8 : off < 8
    · left
      rw [show fileHeader ++ (serBlocks bs1 ++ (block bt p d).take off)
          = pre ++ (block bt p d).take off from by rw [hpre]; simp [List.append_assoc]]
      simp only [decodeLoop]
      rw [if_pos (by rw [hlenD]; omega), if_pos (by rw [hlenD]; omega)]
    · right
      refine ⟨pre.length + 8 + p.length + d.length + 4 - (pre.length + off), ?_⟩
      have hoff8 : 8 ≤ off := by omega
      have htk : (block bt p d).take off
          = (u16le bt ++ u16le 0 ++ u32le d.length) ++ ((p ++ (d ++ u32le ck)).take (off - 8)) := by
        rw [hblock, List.take_append_eq_append_take]
        rw [List.take_of_length_le (by
          simp only [List.length_append, length_u16le, length_u32le]
          omega)]
        rw [show off - (u16le bt ++ u16le 0 ++ u32le d.length).length = off - 8 from by
          simp only [List.length_append, length_u16le, length_u32le] <;> omega]
      set R := (p ++ (d ++ u32le ck)).take (off - 8) with hR
      have hlenR : R.length = off - 8 := by
        rw [hR, List.length_take]
        rw [hlenB] at hoffB
        simp only [List.length_append, length_u32le]
        omega
      have hsplit2 : fileHeader ++ (serBlocks bs1 ++ (block bt p d).take off)
          = pre ++ ((u16le bt ++ u16le 0 ++ u32le d.length) ++ R) := by
        rw [hpre, htk, hR]
        simp [List.append_assoc]
      rw [hsplit2]
      have hlenD2 : (pre ++ ((u16le bt ++ u16le 0 ++ u32le d.length) ++ R)).length
          = pre.length + off := by
        simp only [List.length_append, length_u16le, length_u32le, hlenR]
        omega
      have hr0 : readU16 (pre ++ ((u16le bt ++ u16le 0 ++ u32le d.length) ++ R)) pre.length
          = some bt := by
        rw [show pre ++ ((u16le bt ++ u16le 0 ++ u32le d.length) ++ R)
            = pre ++ (u16le bt ++ (u16le 0 ++ u32le d.length ++ R)) from by
          simp [List.append_assoc]]
        rw [readU16_at _ _ _ _ rfl, Nat.mod_eq_of_lt hb]
      have hr2 : readU16 (pre ++ ((u16le bt ++ u16le 0 ++ u32le d.length) ++ R)) (pre.length + 2)
          = some 0 := by
        rw [show pre ++ ((u16le bt ++ u16le 0 ++ u32le d.length) ++ R)
            = (pre ++ u16le bt) ++ (u16le 0 ++ (u32le d.length ++ R)) from by
          simp [List.append_assoc]]
        rw [readU16_at _ _ _ _ (by simp [u16le]), Nat.zero_mod]
      have hr4 : readU32 (pre ++ ((u16le bt ++ u16le 0 ++ u32le d.length) ++ R)) (pre.length + 4)
          = some d.length := by
        rw [show pre ++ ((u16le bt ++ u16le 0 ++ u32le d.length) ++ R)
            = (pre ++ u16le bt ++ u16le 0) ++ (u32le d.length ++ R) from by
          simp [List.append_assoc]]
        rw [readU32_at _ _ _ _
          (by simp only [List.length_append, length_u16le, length_u32le] <;> omega),
          Nat.mod_eq_of_lt hd]
      simp only [decodeLoop]
      rw [if_pos (by rw [hlenD2]; omega), if_neg (by rw [hlenD2]; omega)]
      rw [hr0, hr2, hr4]
      dsimp only
      rw [if_pos rfl]
      dsimp only
      rw [← hp]
      rw [if_pos (by
        rw [hlenD2]
        rw [hlenB] at hoffB
        omega)]
      rw [hlenD2]

/-- Witness for C4's third conjunct: the encoder's output for `"G28\n"` cut
    3 bytes into its first block raises the truncated-header error at that
    block's offset. -/
theorem C4_truncation_safety_witness :
    ((∀ x ∈ encBlocks [71, 50, 56, 10] [], WFBlock x) ∧ (0:Nat) < 3
      ∧ 3 < (block 0 (u16le 0) fileMetaIni).length)
    ∧ (bgcode_to_ascii (fun _ => none)
        ((fileHeader ++ serBlocks (([] : List (Nat × Bytes × Bytes))
            ++ (0, u16le 0, fileMetaIni)
              :: [(3, u16le 0, []), (4, u16le 0, printMetaIni), (2, u16le 0, []),
                  (1, u16le 0, [71, 50, 56, 10])])).take
          ((fileHeader ++ serBlocks ([] : List (Nat × Bytes × Bytes))).length + 3))
        = .error (.truncatedHeader (fileHeader ++ serBlocks ([] : List (Nat × Bytes × Bytes))).length)
      ∨ ∃ k, bgcode_to_ascii (fun _ => none)
        ((fileHeader ++ serBlocks (([] : List (Nat × Bytes × Bytes))
            ++ (0, u16le 0, fileMetaIni)
              :: [(3, u16le 0, []), (4, u16le 0, printMetaIni), (2, u16le 0, []),
                  (1, u16le 0, [71, 50, 56, 10])])).take
          ((fileHeader ++ serBlocks ([] : List (Nat × Bytes × Bytes))).length + 3))
        = .error (.truncatedPayload (fileHeader ++ serBlocks ([] : List (Nat × Bytes × Bytes))).length k)) :=
  ⟨⟨by decide, by decide, by decide⟩,
   C4_truncation_safety.2.2 (fun _ => none) []
     [(3, u16le 0, []), (4, u16le 0, printMetaIni), (2, u16le 0, []),
      (1, u16le 0, [71, 50, 56, 10])]
     0 (u16le 0) fileMetaIni 3 (by decide) (by decide) (by decide)⟩

/-! ## CRC32 detects every single-byte change

The reflected CRC round is a bijection on 32-bit states, so a one-byte
difference anywhere in the input propagates to a different final CRC. -/

theorem crcRound_inj (c1 c2 : Nat) (h1 : c1 < 4294967296) (h2 : c2 < 4294967296)
    (h : crcRound c1 = crcRound c2) : c1 = c2 := by
  unfold crcRound at h
  have hxorge : ∀ x : Nat, x < 2147483648 → 2147483648 ≤ x ^^^ 0xEDB88320 := by
    intro x hx
    refine Nat.testBit_implies_ge (i := 31) ?_
    rw [Nat.testBit_xor]
    rw [Nat.testBit_lt_two_pow (by norm_num at hx ⊢; omega)]
    decide
  by_cases p1 : c1 % 2 = 1 <;> by_cases p2 : c2 % 2 = 1
  · rw [if_pos p1, if_pos p2] at h
    have := Nat.xor_left_injective h
    omega
  · rw [if_pos p1, if_neg p2] at h
    have hge := hxorge (c1 / 2) (by omega)
    rw [h] at hge
    omega
  · rw [if_neg p1, if_pos p2] at h
    have hge := hxorge (c2 / 2) (by omega)
    rw [← h] at hge
    omega
  · rw [if_neg p1, if_neg p2] at h
    omega

theorem crcRound_iter_inj (k : Nat) :
    ∀ (c1 c2 : Nat), c1 < 4294967296 → c2 < 4294967296 →
      crcRound^[k] c1 = crcRound^[k] c2 → c1 = c2 := by
  induction k with
  | zero => intro c1 c2 _ _ h; simpa using h
  | succ k ih =>
    intro c1 c2 h1 h2 h
    rw [Function.iterate_succ_apply, Function.iterate_succ_apply] at h
    exact crcRound_inj c1 c2 h1 h2 (ih _ _ (crcRound_lt _ h1) (crcRound_lt _ h2) h)

theorem crcByte_state_inj (c1 c2 b : Nat) (h1 : c1 < 4294967296)
    (h2 : c2 < 4294967296) (h : crcByte c1 b = crcByte c2 b) : c1 = c2 := by
  unfold crcByte at h
  have := crcRound_iter_inj 8 (c1 ^^^ (b % 256)) (c2 ^^^ (b % 256))
    (Nat.xor_lt_two_pow (n := 32) h1 (by omega))
    (Nat.xor_lt_two_pow (n := 32) h2 (by omega)) h
  exact Nat.xor_left_injective this

theorem crcByte_byte_ne (c b1 b2 : Nat) (hc : c < 4294967296)
    (hne : b1 % 256 ≠ b2 % 256) : crcByte c b1 ≠ crcByte c b2 := by
  intro h
  unfold crcByte at h
  have := crcRound_iter_inj 8 (c ^^^ (b1 % 256)) (c ^^^ (b2 % 256))
    (Nat.xor_lt_two_pow (n := 32) hc (by omega))
    (Nat.xor_lt_two_pow (n := 32) hc (by omega)) h
  exact hne (Nat.xor_right_injective this)

theorem foldl_crcByte_ne (xs : Bytes) :
    ∀ (s1 s2 : Nat), s1 < 4294967296 → s2 < 4294967296 → s1 ≠ s2 →
      xs.foldl crcByte s1 ≠ xs.foldl crcByte s2 := by
  induction xs with
  | nil => intro s1 s2 _ _ hne; simpa using hne
  | cons x xs ih =>
    intro s1 s2 h1 h2 hne
    simp only [List.foldl_cons]
    exact ih _ _ (crcByte_lt _ _ h1) (crcByte_lt _ _ h2)
      (fun hc => hne (crcByte_state_inj _ _ _ h1 h2 hc))

theorem foldl_crcByte_set_ne (A : Bytes) :
    ∀ (j s b : Nat), s < 4294967296 → j < A.length → b < 256 →
      (∀ x ∈ A, x < 256) → b ≠ A.getD j 0 →
      (A.set j b).foldl crcByte s ≠ A.foldl crcByte s := by
  induction A with
  | nil => intro j s b _ hj; simp at hj
  | cons a A ih =>
    intro j s b hs hj hb hok hne
    cases j with
    | zero =>
      simp only [List.set_cons_zero, List.foldl_cons]
      have ha : a < 256 := hok a (List.mem_cons_self _ _)
      have hbne : b % 256 ≠ a % 256 := by
        rw [Nat.mod_eq_of_lt hb, Nat.mod_eq_of_lt ha]
        simpa using hne
      exact foldl_crcByte_ne A _ _ (crcByte_lt _ _ hs) (crcByte_lt _ _ hs)
        (crcByte_byte_ne s b a hs hbne)
    | succ j =>
      simp only [List.set_cons_succ, List.foldl_cons]
      exact ih j (crcByte s a) b (crcByte_lt _ _ hs)
        (by simpa using hj) hb (fun x hx => hok x (List.mem_cons_of_mem _ hx))
        (by simpa using hne)

/-- Changing any single byte of the input changes the CRC32. -/
theorem crc32_set_ne (A : Bytes) (j b : Nat) (hj : j < A.length) (hb : b < 256)
    (hok : ∀ x ∈ A, x < 256) (hne : b ≠ A.getD j 0) :
    crc32 (A.set j b) 0 ≠ crc32 A 0 := by
  unfold crc32
  intro h
  have hfold := Nat.xor_left_injective h
  exact foldl_crcByte_set_ne A j (0 % 4294967296 ^^^ 4294967295) b (by decide)
    hj hb hok hne hfold

/-! ## Tamper detection (C3) -/

theorem byteAt_append_left (a b : Bytes) (i : Nat) (h : i < a.length) :
    byteAt (a ++ b) i = byteAt a i := by
  simp [byteAt, List.getD_eq_getElem?_getD, List.getElem?_append_left h]

theorem bytesOk_u16le (n : Nat) : ∀ x ∈ u16le n, x < 256 := by
  intro x hx
  simp only [u16le, List.mem_cons, List.not_mem_nil, or_false] at hx
  rcases hx with rfl | rfl <;> omega

theorem bytesOk_u32le (n : Nat) : ∀ x ∈ u32le n, x < 256 := by
  intro x hx
  simp only [u32le, List.mem_cons, List.not_mem_nil, or_false] at hx
  rcases hx with rfl | rfl | rfl | rfl <;> omega

/-- Overwriting one byte of a packed 32-bit value with a different byte
    changes the value the decoder reads back. -/
theorem readU32_u32le_set (n j b : Nat) (rest : Bytes) (hj : j < 4)
    (hb : b < 256) (hn : n < 4294967296) (hne : b ≠ (u32le n).getD j 0) :
    ∃ v, readU32 ((u32le n).set j b ++ rest) 0 = some v ∧ v ≠ n := by
  interval_cases j
  · refine ⟨_, readU32_some _ 0 (by simp [u32le]), ?_⟩
    simp only [u32le, List.set_cons_zero, List.getD_cons_zero] at hne ⊢
    simp only [byteAt, List.cons_append, List.getD_cons_zero, List.getD_cons_succ]
    omega
  · refine ⟨_, readU32_some _ 0 (by simp [u32le]), ?_⟩
    simp only [u32le, List.set_cons_succ, List.set_cons_zero,
      List.getD_cons_succ, List.getD_cons_zero] at hne ⊢
    simp only [byteAt, List.cons_append, List.getD_cons_zero, List.getD_cons_succ]
    omega
  · refine ⟨_, readU32_some _ 0 (by simp [u32le]), ?_⟩
    simp only [u32le, List.set_cons_succ, List.set_cons_zero,
      List.getD_cons_succ, List.getD_cons_zero] at hne ⊢
    simp only [byteAt, List.cons_append, List.getD_cons_zero, List.getD_cons_succ]
    omega
  · refine ⟨_, readU32_some _ 0 (by simp [u32le]), ?_⟩
    simp only [u32le, List.set_cons_succ, List.set_cons_zero,
      List.getD_cons_succ, List.getD_cons_zero] at hne ⊢
    simp only [byteAt, List.cons_append, List.getD_cons_zero, List.getD_cons_succ]
    omega

/-- Stepping the decoder onto a serialized block whose params, payload, or
    trailing checksum had one byte overwritten with a different value: the
    checksum comparison fails and the decode stops with `crcMismatch`
    naming the block's type and offset. -/
theorem decodeLoop_tamper_step (inflate : Bytes → Option Bytes)
    (pre rest : Bytes) (bt : Nat) (p d : Bytes) (off b : Nat)
    (parts : List Bytes) (fuel : Nat)
    (hb : bt < 65536) (hp : p.length = if bt = 5 then 6 else 2)
    (hd : d.length < 4294967296)
    (hoff8 : 8 ≤ off) (hoffB : off < 12 + p.length + d.length)
    (hbb : b < 256) (hpo : ∀ x ∈ p, x < 256) (hdo : ∀ x ∈ d, x < 256)
    (hne : b ≠ byteAt (block bt p d) off) :
    ∃ c s, decodeLoop inflate (pre ++ ((block bt p d).set off b ++ rest))
        (fuel+1) pre.length parts
      = .error (.crcMismatch bt pre.length c s) ∧ c ≠ s := by
  set ck := crc32 d (crc32 p (crc32 (u16le bt ++ u16le 0 ++ u32le d.length) 0)) with hckdef
  set hdr8 := u16le bt ++ u16le 0 ++ u32le d.length with hhdr8
  have hlen8 : hdr8.length = 8 := by
    simp [hhdr8, u16le, u32le]
  set A := hdr8 ++ (p ++ d) with hA
  have hlenA : A.length = 8 + p.length + d.length := by
    simp only [hA, List.length_append, hlen8]
    omega
  have hAok : ∀ x ∈ A, x < 256 := by
    intro x hx
    simp only [hA, hhdr8, List.mem_append] at hx
    rcases hx with ((hx | hx) | hx) | (hx | hx)
    · exact bytesOk_u16le bt x hx
    · exact bytesOk_u16le 0 x hx
    · exact bytesOk_u32le d.length x hx
    · exact hpo x hx
    · exact hdo x hx
  have hckA : crc32 A 0 = ck := by
    rw [hA, hhdr8, hckdef, crc32_append, crc32_append]
  have hblock : block bt p d = A ++ u32le ck := by
    simp only [block, ← hckdef, hA, hhdr8]
    simp [List.append_assoc]
  have hplen : p.length ≤ 6 := by rw [hp]; split <;> omega
  by_cases hreg : off < 8 + p.length + d.length
  · -- flip inside params or payload
    set M := (p ++ d).set (off - 8) b with hM
    have hBset : (block bt p d).set off b = (hdr8 ++ M) ++ u32le ck := by
      rw [hblock, hA, List.set_append, if_pos (by rw [hlenA]; omega),
        List.set_append, if_neg (by omega), hM, hlen8]
    have hlenM : M.length = p.length + d.length := by
      simp [hM]
    have hAset : (hdr8 ++ M) = A.set off b := by
      rw [hA, List.set_append, if_neg (by rw [hlen8]; omega), hlen8, hM]
    have hcompNe : crc32 (hdr8 ++ M) 0 ≠ ck := by
      rw [hAset, ← hckA]
      refine crc32_set_ne A off b (by omega) hbb hAok ?_
      rw [show A.getD off 0 = byteAt (block bt p d) off from ?_]
      · exact hne
      · rw [hblock, show (List.getD A off 0) = byteAt A off from rfl,
          byteAt_append_left A (u32le ck) off (by omega)]
    set D := pre ++ ((block bt p d).set off b ++ rest) with hD
    have hDsh : D = pre ++ (((hdr8 ++ M) ++ u32le ck) ++ rest) := by
      rw [hD, hBset]
    have hlenD : D.length = pre.length + (12 + p.length + d.length) + rest.length := by
      rw [hDsh]
      simp only [List.length_append, hlen8, hlenM, length_u32le]
      omega
    have hr0 : readU16 D pre.length = some bt := by
      rw [show D = pre ++ (u16le bt ++ (u16le 0 ++ u32le d.length ++ M ++ u32le ck ++ rest))
          from by rw [hDsh, hhdr8]; simp [List.append_assoc]]
      rw [readU16_at _ _ _ _ rfl, Nat.mod_eq_of_lt hb]
    have hr2 : readU16 D (pre.length + 2) = some 0 := by
      rw [show D = (pre ++ u16le bt) ++ (u16le 0 ++ (u32le d.length ++ M ++ u32le ck ++ rest))
          from by rw [hDsh, hhdr8]; simp [List.append_assoc]]
      rw [readU16_at _ _ _ _ (by simp [u16le]), Nat.zero_mod]
    have hr4 : readU32 D (pre.length + 4) = some d.length := by
      rw [show D = (pre ++ u16le bt ++ u16le 0) ++ (u32le d.length ++ (M ++ u32le ck ++ rest))
          from by rw [hDsh, hhdr8]; simp [List.append_assoc]]
      rw [readU32_at _ _ _ _
        (by simp only [List.length_append, length_u16le, length_u32le] <;> omega),
        Nat.mod_eq_of_lt hd]
    have hsl1 : slice D pre.length (pre.length + 8 + p.length + d.length)
        = hdr8 ++ M := by
      rw [show D = pre ++ ((hdr8 ++ M) ++ (u32le ck ++ rest))
          from by rw [hDsh]; simp [List.append_assoc]]
      rw [slice_at _ _ _ _ _ rfl
        (by simp only [List.length_append, hlen8, hlenM] <;> omega)]
    have hr5 : readU32 D (pre.length + 8 + p.length + d.length) = some ck := by
      rw [show D = (pre ++ (hdr8 ++ M)) ++ (u32le ck ++ rest)
          from by rw [hDsh]; simp [List.append_assoc]]
      rw [readU32_at _ _ _ _
        (by simp only [List.length_append, hlen8, hlenM] <;> omega),
        Nat.mod_eq_of_lt (crc32_lt _ _)]
    refine ⟨crc32 (hdr8 ++ M) 0, ck, ?_, hcompNe⟩
    simp only [decodeLoop]
    rw [if_pos (by omega), if_neg (by omega), hr0, hr2, hr4]
    dsimp only
    rw [if_pos rfl]
    dsimp only
    rw [← hp]
    rw [if_neg (show ¬ (pre.length + 8 + p.length + d.length + 4 > D.length) from by omega)]
    rw [hr5, hsl1]
    dsimp only
    rw [if_pos hcompNe]
  · -- flip inside the trailing 4 checksum bytes
    have hregB : 8 + p.length + d.length ≤ off := by omega
    set j := off - (8 + p.length + d.length) with hjdef
    have hj4 : j < 4 := by omega
    have hKne : b ≠ (u32le ck).getD j 0 := by
      rw [show (u32le ck).getD j 0 = byteAt (block bt p d) off from ?_]
      · exact hne
      · rw [hblock, byteAt_append_right A (u32le ck) off (by omega)]
        rw [show off - A.length = j from by rw [hlenA]]
        rfl
    obtain ⟨v, hv, hvne⟩ := readU32_u32le_set ck j b rest hj4 hbb (crc32_lt _ _) hKne
    have hBset : (block bt p d).set off b = A ++ (u32le ck).set j b := by
      rw [hblock, List.set_append, if_neg (by rw [hlenA]; omega)]
      congr 2
      rw [hlenA]
    set D := pre ++ ((block bt p d).set off b ++ rest) with hD
    have hDsh : D = pre ++ ((A ++ (u32le ck).set j b) ++ rest) := by
      rw [hD, hBset]
    have hlenK : ((u32le ck).set j b).length = 4 := by
      simp [u32le]
    have hlenD : D.length = pre.length + (12 + p.length + d.length) + rest.length := by
      rw [hDsh]
      simp only [List.length_append, hlenA, hlenK]
      omega
    have hr0 : readU16 D pre.length = some bt := by
      rw [show D = pre ++ (u16le bt ++ (u16le 0 ++ u32le d.length ++ (p ++ d) ++ ((u32le ck).set j b) ++ rest))
          from by rw [hDsh, hA, hhdr8]; simp [List.append_assoc]]
      rw [readU16_at _ _ _ _ rfl, Nat.mod_eq_of_lt hb]
    have hr2 : readU16 D (pre.length + 2) = some 0 := by
      rw [show D = (pre ++ u16le bt) ++ (u16le 0 ++ (u32le d.length ++ (p ++ d) ++ ((u32le ck).set j b) ++ rest))
          from by rw [hDsh, hA, hhdr8]; simp [List.append_assoc]]
      rw [readU16_at _ _ _ _ (by simp [u16le]), Nat.zero_mod]
    have hr4 : readU32 D (pre.length + 4) = some d.length := by
      rw [show D = (pre ++ u16le bt ++ u16le 0) ++ (u32le d.length ++ ((p ++ d) ++ ((u32le ck).set j b) ++ rest))
          from by rw [hDsh, hA, hhdr8]; simp [List.append_assoc]]
      rw [readU32_at _ _ _ _
        (by simp only [List.length_append, length_u16le, length_u32le] <;> omega),
        Nat.mod_eq_of_lt hd]
    have hsl1 : slice D pre.length (pre.length + 8 + p.length + d.length) = A := by
      rw [show D = pre ++ (A ++ (((u32le ck).set j b) ++ rest))
          from by rw [hDsh]; simp [List.append_assoc]]
      rw [slice_at _ _ _ _ _ rfl (by rw [hlenA]; omega)]
    have hr5 : readU32 D (pre.length + 8 + p.length + d.length) = some v := by
      rw [show D = (pre ++ A) ++ (((u32le ck).set j b) ++ rest)
          from by rw [hDsh]; simp [List.append_assoc]]
      rw [readU32_append_right _ _ _
        (by simp only [List.length_append, hlenA] <;> omega)]
      rw [show pre.length + 8 + p.length + d.length - (pre ++ A).length = 0 from by
        simp only [List.length_append, hlenA] <;> omega]
      exact hv
    refine ⟨ck, v, ?_, fun hc => hvne hc.symm⟩
    simp only [decodeLoop]
    rw [if_pos (by omega), if_neg (by omega), hr0, hr2, hr4]
    dsimp only
    rw [if_pos rfl]
    dsimp only
    rw [← hp]
    rw [if_neg (show ¬ (pre.length + 8 + p.length + d.length + 4 > D.length) from by omega)]
    rw [hr5, hsl1, hckA]
    dsimp only
    rw [if_pos (fun hc => hvne hc.symm)]

set_option maxRecDepth 1000000 in
/-- Counterexample to C3 as stated: flipping a byte inside a block's
    8-byte *header* need not raise the checksum-mismatch error.  In the
    encoder's output for the text "G28\n" with no thumbnails, byte 12 is
    the low byte of the first block's compression field (value 0);
    overwriting it with 4 makes the decoder fail with the
    unknown-compression error at that block's offset before any checksum
    is computed, so no `crcMismatch` is ever raised. -/
theorem C3_counterexample :
    byteAt (write_bgcode [71, 50, 56, 10] []) 12 = 0
    ∧ bgcode_to_ascii (fun _ => none) ((write_bgcode [71, 50, 56, 10] []).set 12 4)
        = .error (.unknownCompression 4 10) :=
  ⟨by rfl, by rfl⟩

set_option maxRecDepth 1000000 in
/-- **C3 (tamper detection, amended)** — for every structurally serialized
    container and every single-byte overwrite with a different byte value
    at any position inside a block's params, payload, or trailing 4-byte
    checksum (block offsets 8 and beyond), decoding fails with the
    checksum-mismatch error naming that block's type and offset, with the
    recomputed and stored checksums unequal.  (Flips inside the 8-byte
    block header are excluded: they change the parsed framing fields and
    may raise other errors, as `C3_counterexample` shows.) -/
theorem C3_tamper_detection (inflate : Bytes → Option Bytes)
    (bs1 bs2 : List (Nat × Bytes × Bytes)) (bt : Nat) (p d : Bytes)
    (off b : Nat)
    (hwf : ∀ x ∈ bs1 ++ (bt, p, d) :: bs2, WFBlock x)
    (hpo : ∀ v ∈ p, v < 256) (hdo : ∀ v ∈ d, v < 256)
    (hoff8 : 8 ≤ off) (hoffB : off < (block bt p d).length)
    (hbb : b < 256) (hne : b ≠ byteAt (block bt p d) off) :
    ∃ c s, bgcode_to_ascii inflate
        ((fileHeader ++ serBlocks (bs1 ++ (bt, p, d) :: bs2)).set
          ((fileHeader ++ serBlocks bs1).length + off) b)
      = .error (.crcMismatch bt (fileHeader ++ serBlocks bs1).length c s)
      ∧ c ≠ s := by
  have hwfx := hwf (bt, p, d) (by simp)
  have hb : bt < 65536 := hwfx.1
  have hp : p.length = if bt = 5 then 6 else 2 := hwfx.2.1
  have hd : d.length < 4294967296 := hwfx.2.2.1
  have hlenB : (block bt p d).length = 12 + p.length + d.length := length_block bt p d
  have hoffB' : off < 12 + p.length + d.length := by omega
  set pre := fileHeader ++ serBlocks bs1 with hpre
  have hpre10 : 10 ≤ pre.length := by
    simp only [hpre, List.length_append]
    have : fileHeader.length = 10 := rfl
    omega
  have hsplit : (fileHeader ++ serBlocks (bs1 ++ (bt, p, d) :: bs2)).set
      (pre.length + off) b
      = pre ++ ((block bt p d).set off b ++ serBlocks bs2) := by
    rw [show fileHeader ++ serBlocks (bs1 ++ (bt, p, d) :: bs2)
        = pre ++ (block bt p d ++ serBlocks bs2) from by
      rw [hpre]
      simp only [serBlocks, List.map_append, List.flatten_append, List.map_cons,
        List.flatten_cons]
      simp [List.append_assoc]]
    rw [List.set_append, if_neg (by omega)]
    rw [show pre.length + off - pre.length = off from by omega]
    rw [List.set_append, if_pos (by omega)]
  rw [hsplit]
  set Bset := (block bt p d).set off b with hBset
  have hlenBset : Bset.length = 12 + p.length + d.length := by
    rw [hBset, List.length_set, hlenB]
  have hlenD : (pre ++ (Bset ++ serBlocks bs2)).length
      = pre.length + (12 + p.length + d.length) + (serBlocks bs2).length := by
    simp only [List.length_append, hlenBset]
    omega
  obtain ⟨c, s, hstep, hcs⟩ := decodeLoop_tamper_step inflate pre (serBlocks bs2)
    bt p d off b (gcodeParts bs1)
    ((pre ++ (Bset ++ serBlocks bs2)).length - bs1.length)
    hb hp hd hoff8 hoffB' hbb hpo hdo hne
  refine ⟨c, s, ?_, hcs⟩
  unfold bgcode_to_ascii
  rw [if_neg (by rw [hlenD]; omega)]
  rw [if_neg (by
    simp only [ne_eq, Decidable.not_not]
    rw [show pre ++ (Bset ++ serBlocks bs2)
        = MAGIC ++ (u32le 1 ++ u16le 1 ++ (serBlocks bs1 ++ (Bset ++ serBlocks bs2)))
        from by rw [hpre]; simp [fileHeader, List.append_assoc]]
    rw [List.take_append_eq_append_take]
    simp [MAGIC])]
  have hge := length_le_length_serBlocks bs1
  have h10p : pre.length = 10 + (serBlocks bs1).length := by
    rw [hpre]
    simp only [List.length_append]
    rfl
  have hfuel : (pre ++ (Bset ++ serBlocks bs2)).length + 1
      = bs1.length + (((pre ++ (Bset ++ serBlocks bs2)).length - bs1.length) + 1) := by
    rw [hlenD]
    omega
  rw [hfuel]
  rw [show (10:Nat) = fileHeader.length from rfl]
  rw [show pre ++ (Bset ++ serBlocks bs2)
      = fileHeader ++ (serBlocks bs1 ++ (Bset ++ serBlocks bs2)) from by
    rw [hpre]; simp [List.append_assoc]]
  rw [decodeLoop_skipBlocks inflate bs1 fileHeader _ [] _
    (fun y hy => hwf y (by simp [hy]))]
  rw [show fileHeader ++ (serBlocks bs1 ++ (Bset ++ serBlocks bs2))
      = pre ++ (Bset ++ serBlocks bs2) from by rw [hpre]; simp [List.append_assoc]]
  rw [← hpre]
  simp only [List.nil_append]
  rw [hBset] at hstep ⊢
  rw [hstep]

set_option maxRecDepth 1000000 in
/-- Witness for C3: a container holding a single GCode block with payload
    "G"; overwriting the payload byte (block offset 10) with a different
    value yields the checksum-mismatch error at the block's offset. -/
theorem C3_tamper_detection_witness :
    ∃ c s, bgcode_to_ascii (fun _ => none)
        ((fileHeader ++ serBlocks ([] ++ ((1:Nat), u16le 0, ([71] : Bytes)) :: [])).set
          ((fileHeader ++ serBlocks []).length + 10) 72)
      = .error (.crcMismatch 1 (fileHeader ++ serBlocks []).length c s)
      ∧ c ≠ s :=
  C3_tamper_detection (fun _ => none) [] [] 1 (u16le 0) [71] 10 72
    (by decide) (by decide) (by decide) (by decide) (by decide) (by decide)
    (by decide)

end PrusaBgcode
